import Mathlib

/-!
Verification of the sled-backed transactional storage adapter
(`src/storages/sled_storage/store_mut.rs` and
`src/storages/sled_storage/index_mut.rs`) against its natural-language
specification.

The embedding is shallow and executable:

* Byte strings are `List Nat`; string keys are embedded through the
  code points of their characters (`strBytes`), and `u64::to_be_bytes`
  through `beBytes` (eight base-256 digits, i.e. truncation mod 2^64).
* The sled tree is an association list from keys to stored values,
  together with the monotonic id generator (`Db::generate_id`), the
  process-wide transaction-id counter, and a ghost access log that
  records every key touched by `get`/`insert`/`remove`.  The log has no
  influence on the data; it only makes "operation X never touches key
  k" claims directly statable.
* bincode serialization is modelled by the constructor-tagged type
  `StoredVal`: the spec (§6) only requires a deterministic
  self-describing format, under which values of distinct shapes have
  distinct encodings.  Serialization and expression evaluation are
  modelled as total; their failure paths are therefore absent.
* A sled transaction is a function producing `TxResult`: on `ok` the
  written tree commits, on `abort` the keyspace reverts to its state
  at transaction start (sled's documented atomicity, which the spec
  treats as a black box).

The repository snapshot carries two generations of the mutation engine:
the legacy `StoreMut` impl in `store_mut.rs` (raw serialized schemas,
no lock, no snapshot) and the `IndexMut` impl in `index_mut.rs`
(snapshot-wrapped schemas, structural lock, temp markers).  They are
embedded side by side in namespaces `SM` and `IM`.

`snapshot.rs`, `lock.rs`, `key.rs` and `index_sync.rs` are not part of
the given sources; those components are modelled from the spec, as
marked on each definition.
-/

set_option autoImplicit false

namespace Sled

abbrev Bytes := List Nat

/-- Byte string of a Rust `&str`, one code point per character. -/
def strBytes (s : String) : Bytes := s.data.map Char.toNat

/-- `u64::to_be_bytes`: eight big-endian base-256 digits of `n % 2^64`. -/
def beBytes (n : Nat) : Bytes :=
  [n / 2 ^ 56 % 256, n / 2 ^ 48 % 256, n / 2 ^ 40 % 256, n / 2 ^ 32 % 256,
   n / 2 ^ 24 % 256, n / 2 ^ 16 % 256, n / 2 ^ 8 % 256, n % 256]

/-- Recompose the eight big-endian digits; inverse of `beBytes` mod 2^64. -/
def decodeBe (b : Bytes) : Nat :=
  match b with
  | [b7, b6, b5, b4, b3, b2, b1, b0] =>
      ((((((b7 * 256 + b6) * 256 + b5) * 256 + b4) * 256 + b3) * 256 + b2) * 256 + b1) * 256 + b0
  | _ => 0

/-- A row is an ordered tuple of column values (values embedded as `Nat`). -/
abbrev Row := List Nat

/-- Index expression: the evaluator is out of scope for the spec (§1), so a
minimal pure expression language over a row is used. -/
inductive Expr where
  | col (i : Nat)
  | lit (v : Nat)
deriving DecidableEq, Repr

def evalExpr : Expr → Row → Nat
  | .col i, r => r.getD i 0
  | .lit v, _ => v

/-- `ast::OrderByExpr`: an expression plus an optional ascending flag. -/
structure OrderByExpr where
  expr : Expr
  asc : Option Bool
deriving DecidableEq, Repr

/-- `data::SchemaIndexOrd` (`index_mut.rs` world). -/
inductive SchemaIndexOrd where
  | Asc
  | Desc
  | Both
deriving DecidableEq, Repr

/-- `data::SchemaIndex` (`index_mut.rs` world). -/
structure SchemaIndex where
  name : String
  expr : Expr
  order : SchemaIndexOrd
deriving DecidableEq, Repr

/-- Schema as used by `index_mut.rs`: named indexes with order capability. -/
structure Schema where
  table_name : String
  column_defs : List String
  indexes : List SchemaIndex
deriving DecidableEq, Repr

/-- Schema as used by `store_mut.rs`: indexes are `(name, expr)` pairs. -/
structure SchemaP where
  table_name : String
  column_defs : List String
  indexes : List (String × Expr)
deriving DecidableEq, Repr

/-- Modelled from the spec (§4.2, `snapshot.rs` is not under `src/`): a
versioned wrapper holding the value current to the stamping txid, or no
value after a tombstone. -/
structure Snapshot (α : Type) where
  txid : Nat
  value : Option α
deriving DecidableEq, Repr

/-- Modelled from the spec (§4.2): mark the current value tombstoned by
`txid` and return the previously current value, if any. -/
def Snapshot.delete {α : Type} (s : Snapshot α) (txid : Nat) : Snapshot α × Option α :=
  (⟨txid, none⟩, s.value)

/-- Modelled from the spec (§4.2): write `v` as the value current to `txid`. -/
def Snapshot.update {α : Type} (_s : Snapshot α) (txid : Nat) (v : α) : Snapshot α :=
  ⟨txid, some v⟩

/-- Durable values, tagged by shape; stands for the bincode bytes of each
payload (the spec §6 requires a deterministic, self-describing format). -/
inductive StoredVal where
  | schemaRaw (s : SchemaP)
  | snap (s : Snapshot Schema)
  | rowV (r : Row)
  | bytesV (b : Bytes)
  | lockV (txid : Nat)
deriving DecidableEq, Repr

/- Key codec (§4.1; `key.rs` is not under `src/`, the formats are those of
the spec and of the `format!` calls visible in the sources). -/

def schemaKey (t : String) : Bytes := strBytes "schema/" ++ strBytes t

def rowKeyBase (t : String) : Bytes := strBytes "data/" ++ strBytes t ++ strBytes "/"

def dataKey (t : String) (id : Nat) : Bytes := rowKeyBase t ++ beBytes id

/-- Modelled from the spec (§3, §4.4): composite index-entry key
`index/<table>/<index-name>/<encoded-value>/<row-id>`. -/
def indexEntryKey (t iname : String) (v : Nat) (idBytes : Bytes) : Bytes :=
  strBytes "index/" ++ strBytes t ++ strBytes "/" ++ strBytes iname ++ strBytes "/" ++
    beBytes v ++ strBytes "/" ++ idBytes

/-- Modelled from the spec (§3): `temp_schema/<txid>/<table>`. -/
def tempSchemaKey (txid : Nat) (t : String) : Bytes :=
  strBytes "temp_schema/" ++ beBytes txid ++ strBytes "/" ++ strBytes t

/-- Modelled from the spec (§4.1): the one reserved single-byte lock key. -/
def lockKey : Bytes := [0]

/-- Row-id suffix of a data key: the bytes after the `data/<table>/` base. -/
def idBytesOf (t : String) (k : Bytes) : Bytes := k.drop (rowKeyBase t).length

/-- First byte of a key (999 for the empty key); the key families are told
apart by it: `data/` 100, `index/` 105, `schema/` 115, `temp_schema/` 116,
lock 0. -/
def keyHead (k : Bytes) : Nat := k.headD 999

/- The KV substrate (§6): an ordered byte keyspace with first-match
association-list semantics; `setKV` replaces in place or appends. -/

abbrev KV := List (Bytes × StoredVal)

def lookupKV : KV → Bytes → Option StoredVal
  | [], _ => none
  | (k, v) :: rest, key => if k = key then some v else lookupKV rest key

def setKV : KV → Bytes → StoredVal → KV
  | [], key, v => [(key, v)]
  | (k, w) :: rest, key, v =>
      if k = key then (k, v) :: rest else (k, w) :: setKV rest key v

def removeKV : KV → Bytes → KV
  | [], _ => []
  | (k, w) :: rest, key =>
      if k = key then removeKV rest key else (k, w) :: removeKV rest key

/-- The storage handle: the sled keyspace, sled's monotonic id generator,
the process-wide txid counter (§4.3), and the ghost access log. -/
structure Storage where
  kv : KV
  idCounter : Nat
  lockCounter : Nat
  accessLog : List Bytes
deriving DecidableEq, Repr

/-- `tree.get`, logging the key. -/
def getOp (s : Storage) (k : Bytes) : Storage × Option StoredVal :=
  ({ s with accessLog := s.accessLog ++ [k] }, lookupKV s.kv k)

/-- `tree.insert`, returning the previous value and logging the key. -/
def insertOp (s : Storage) (k : Bytes) (v : StoredVal) : Storage × Option StoredVal :=
  ({ s with kv := setKV s.kv k v, accessLog := s.accessLog ++ [k] }, lookupKV s.kv k)

/-- `tree.remove`, returning the previous value and logging the key. -/
def removeOp (s : Storage) (k : Bytes) : Storage × Option StoredVal :=
  ({ s with kv := removeKV s.kv k, accessLog := s.accessLog ++ [k] }, lookupKV s.kv k)

/-- `tree.generate_id`: monotonic, consumed even by aborted transactions. -/
def genId (s : Storage) : Storage × Nat :=
  ({ s with idCounter := s.idCounter + 1 }, s.idCounter)

/-- The error taxonomy of §7 that the two source files can surface. -/
inductive Error where
  | TableNotFound (t : String)
  | ConflictTableNotFound (t : String)
  | IndexNameAlreadyExists (n : String)
  | IndexNameDoesNotExist (n : String)
  | ConflictOnEmptyIndexValueUpdate
  | ConflictOnEmptyIndexValueDelete
  | LockConflict
  | SerializationError
deriving DecidableEq, Repr

deriving instance DecidableEq for Except

/-- Outcome of a transaction closure body. -/
inductive TxResult (α : Type) where
  | ok (tr : Storage) (a : α)
  | abort (tr : Storage) (e : Error)
deriving DecidableEq

/-- The storage carried by a transaction outcome (used to reason about
the ghost access log uniformly over both outcomes). -/
def TxResult.st {α : Type} : TxResult α → Storage
  | .ok tr _ => tr
  | .abort tr _ => tr

/-- The `transaction!` macro around sled's closure transaction: a committed
body persists its tree; an aborted body reverts the keyspace to its state
at transaction start (ids and the ghost log are consumed regardless). -/
def runTx (s : Storage) (r : TxResult Unit) : Storage × Option Error :=
  match r with
  | .ok tr _ => (tr, none)
  | .abort tr e => ({ tr with kv := s.kv }, some e)

/-- Prefix scan of `data/<table>/`, decoding each value as a row
(`scan_data`; the scan itself is a read-only iterator, modelled without
logging). -/
def decodeRows : List (Bytes × StoredVal) → Except Error (List (Bytes × Row))
  | [] => .ok []
  | (k, .rowV r) :: rest => (decodeRows rest).map (fun l => (k, r) :: l)
  | (_, _) :: _ => .error .SerializationError

def scanData (s : Storage) (t : String) : Except Error (List (Bytes × Row)) :=
  decodeRows (s.kv.filter (fun kv => (rowKeyBase t).isPrefixOf kv.1))

/-- Modelled from the spec (§4.3, `lock.rs` is not under `src/`): a stored
lock is live when its txid has not yet been superseded by the process-wide
counter. -/
def lockLive (s : Storage) : Bool :=
  match lookupKV s.kv lockKey with
  | some (.lockV t) => decide (s.lockCounter ≤ t)
  | some _ => true
  | none => false

/-- Modelled from the spec (§4.3): `lock::acquire` reads the global lock
key; if absent or expired it installs this writer's token and returns a
fresh monotonically increasing txid, otherwise it aborts the enclosing
transaction with a conflict error. -/
def lockAcquire (s : Storage) : TxResult Nat :=
  let p := getOp s lockKey
  match p.2 with
  | some (.lockV t) =>
      if p.1.lockCounter ≤ t then .abort p.1 .LockConflict
      else
        let txid := p.1.lockCounter
        let q := insertOp p.1 lockKey (.lockV txid)
        .ok { q.1 with lockCounter := q.1.lockCounter + 1 } txid
  | some _ => .abort p.1 .LockConflict
  | none =>
      let txid := p.1.lockCounter
      let q := insertOp p.1 lockKey (.lockV txid)
      .ok { q.1 with lockCounter := q.1.lockCounter + 1 } txid

/-!
`SM`: the legacy `StoreMut<IVec> for SledStorage` impl of `store_mut.rs`
(compiled with the `index` feature).  Schemas are stored as raw
serialized `Schema` values with `(name, expr)` index pairs.
-/

namespace SM

/-- `super::fetch_schema` as consumed by `store_mut.rs` (`mod.rs` is not
under `src/`): reads `schema/<table>` and deserializes a raw schema.
Modelled from the spec plus the raw-schema discipline of this file. -/
def fetchSchemaRaw (s : Storage) (t : String) : Storage × Except Error (Option SchemaP) :=
  let p := getOp s (schemaKey t)
  match p.2 with
  | none => (p.1, .ok none)
  | some (.schemaRaw sch) => (p.1, .ok (some sch))
  | some _ => (p.1, .error .SerializationError)

/-- Modelled from the spec (§4.4, `index_sync.rs` is not under `src/`):
`IndexSync::new` reads the committed schema of the table and carries its
index list as a pure view. -/
def newIndexSync (s : Storage) (t : String) : Storage × Except Error (List (String × Expr)) :=
  let p := getOp s (schemaKey t)
  match p.2 with
  | none => (p.1, .error (.TableNotFound t))
  | some (.schemaRaw sch) => (p.1, .ok sch.indexes)
  | some _ => (p.1, .error .SerializationError)

/-- Modelled from the spec (§4.4): `IndexSync::insert` writes, for every
index of the schema, the entry key for this row; entry values are empty
(§3: the key carries the mapping). -/
def syncInsertRow (t : String) (sync : List (String × Expr)) (s : Storage)
    (k : Bytes) (r : Row) : Storage :=
  sync.foldl
    (fun s ne =>
      (insertOp s (indexEntryKey t ne.1 (evalExpr ne.2 r) (idBytesOf t k)) (.bytesV [])).1)
    s

/-- Modelled from the spec (§4.4): `IndexSync::delete` removes every
index entry computed for this row. -/
def syncDeleteRow (t : String) (sync : List (String × Expr)) (s : Storage)
    (k : Bytes) (r : Row) : Storage :=
  sync.foldl
    (fun s ne =>
      (removeOp s (indexEntryKey t ne.1 (evalExpr ne.2 r) (idBytesOf t k))).1)
    s

/-- Modelled from the spec (§4.4): `IndexSync::update` leaves an entry
alone when the indexed value is unchanged, otherwise deletes the old
entry and inserts the new one. -/
def syncUpdateRow (t : String) (sync : List (String × Expr)) (s : Storage)
    (k : Bytes) (oldRow newRow : Row) : Storage :=
  sync.foldl
    (fun s ne =>
      if evalExpr ne.2 oldRow = evalExpr ne.2 newRow then s
      else
        let s := (removeOp s (indexEntryKey t ne.1 (evalExpr ne.2 oldRow) (idBytesOf t k))).1
        (insertOp s (indexEntryKey t ne.1 (evalExpr ne.2 newRow) (idBytesOf t k)) (.bytesV [])).1)
    s

/-- `insert_schema` (store_mut.rs:57-65): one non-transactional write of
the serialized schema to `schema/<name>`. -/
def insert_schema (s : Storage) (sch : SchemaP) : Storage × Option Error :=
  ((insertOp s (schemaKey sch.table_name) (.schemaRaw sch)).1, none)

/-- Transaction body of `insert_data`: per row, a fresh id, the
`data/<table>/<be id>` key, `IndexSync::insert`, then the row write. -/
def insGo (t : String) (sync : List (String × Expr)) : Storage → List Row → TxResult Unit
  | s, [] => .ok s ()
  | s, r :: rest =>
      let p := genId s
      let k := rowKeyBase t ++ beBytes p.2
      let s := syncInsertRow t sync p.1 k r
      let q := insertOp s k (.rowV r)
      insGo t sync q.1 rest

/-- `insert_data` (store_mut.rs:83-112). -/
def insert_data (s0 : Storage) (t : String) (rows : List Row) : Storage × Option Error :=
  match SM.newIndexSync s0 t with
  | (s1, .error e) => (s1, some e)
  | (s1, .ok sync) => runTx s1 (insGo t sync s1 rows)

/-- Transaction body of `update_data`: per pair, swap in the new value,
abort `ConflictOnEmptyIndexValueUpdate` when no prior value existed,
deserialize the prior value and run `IndexSync::update`. -/
def updGo (t : String) (sync : List (String × Expr)) :
    Storage → List (Bytes × Row) → TxResult Unit
  | s, [] => .ok s ()
  | s, (k, newRow) :: rest =>
      let p := insertOp s k (.rowV newRow)
      match p.2 with
      | none => .abort p.1 .ConflictOnEmptyIndexValueUpdate
      | some (.rowV oldRow) =>
          let s := syncUpdateRow t sync p.1 k oldRow newRow
          updGo t sync s rest
      | some _ => .abort p.1 .SerializationError

/-- `update_data` (store_mut.rs:129-153, the `index`-feature variant). -/
def update_data (s0 : Storage) (t : String) (rows : List (Bytes × Row)) :
    Storage × Option Error :=
  match SM.newIndexSync s0 t with
  | (s1, .error e) => (s1, some e)
  | (s1, .ok sync) => runTx s1 (updGo t sync s1 rows)

/-- Transaction body of `delete_data`: per key, remove it, abort
`ConflictOnEmptyIndexValueDelete` when it was absent, deserialize the
removed value and run `IndexSync::delete`. -/
def delGo (t : String) (sync : List (String × Expr)) :
    Storage → List Bytes → TxResult Unit
  | s, [] => .ok s ()
  | s, k :: rest =>
      let p := removeOp s k
      match p.2 with
      | none => .abort p.1 .ConflictOnEmptyIndexValueDelete
      | some (.rowV r) =>
          let s := syncDeleteRow t sync p.1 k r
          delGo t sync s rest
      | some _ => .abort p.1 .SerializationError

/-- `delete_data` (store_mut.rs:166-186, the `index`-feature variant). -/
def delete_data (s0 : Storage) (t : String) (keys : List Bytes) :
    Storage × Option Error :=
  match SM.newIndexSync s0 t with
  | (s1, .error e) => (s1, some e)
  | (s1, .ok sync) => runTx s1 (delGo t sync s1 keys)

/-- `create_index` (store_mut.rs:188-242): no lock, no snapshot; errors
are detected before the transaction; the transaction rewrites the raw
schema and re-inserts the entries of every index of the new schema for
every scanned row. -/
def create_index (s0 : Storage) (t n : String) (ex : Expr) : Storage × Option Error :=
  match SM.fetchSchemaRaw s0 t with
  | (s1, .error e) => (s1, some e)
  | (s1, .ok none) => (s1, some (.TableNotFound t))
  | (s1, .ok (some sch)) =>
      if sch.indexes.any (fun ne => ne.1 == n) then
        (s1, some (.IndexNameAlreadyExists n))
      else
        let newSch : SchemaP := ⟨t, sch.column_defs, sch.indexes ++ [(n, ex)]⟩
        match scanData s1 t with
        | .error e => (s1, some e)
        | .ok rows =>
            runTx s1 (
              let p := insertOp s1 (schemaKey t) (.schemaRaw newSch)
              let s := rows.foldl (fun s kr => syncInsertRow t newSch.indexes s kr.1 kr.2) p.1
              .ok s ())

/-- `drop_index` (store_mut.rs:244-293): no lock, no snapshot; removes
the named pair from the schema, rewrites the raw schema, and (as the
source does) runs `IndexSync::delete` built from the post-removal
schema over every scanned row. -/
def drop_index (s0 : Storage) (t n : String) : Storage × Option Error :=
  match SM.fetchSchemaRaw s0 t with
  | (s1, .error e) => (s1, some e)
  | (s1, .ok none) => (s1, some (.TableNotFound t))
  | (s1, .ok (some sch)) =>
      if sch.indexes.all (fun ne => ne.1 != n) then
        (s1, some (.IndexNameDoesNotExist n))
      else
        let newSch : SchemaP := ⟨t, sch.column_defs, sch.indexes.filter (fun ne => ne.1 != n)⟩
        match scanData s1 t with
        | .error e => (s1, some e)
        | .ok rows =>
            runTx s1 (
              let p := insertOp s1 (schemaKey t) (.schemaRaw newSch)
              let s := rows.foldl (fun s kr => syncDeleteRow t newSch.indexes s kr.1 kr.2) p.1
              .ok s ())

end SM

/-!
`IM`: the `IndexMut<IVec> for SledStorage` impl of `index_mut.rs`.
Schemas are snapshot-wrapped; structural mutations acquire the lock and
leave a temp marker.
-/

namespace IM

/-- `fetch_schema` (index_mut.rs:48-61): read `schema/<table>` inside the
transaction and deserialize it as a `Snapshot<Schema>`. -/
def fetchSchema (s : Storage) (t : String) : TxResult (Bytes × Option (Snapshot Schema)) :=
  let p := getOp s (schemaKey t)
  match p.2 with
  | none => .ok p.1 (schemaKey t, none)
  | some (.snap sn) => .ok p.1 (schemaKey t, some sn)
  | some _ => .abort p.1 .SerializationError

/-- Modelled from the spec (§4.4): `IndexSync::insert_index` writes the
entry of one specific index for one row. -/
def insertIndexEntry (s : Storage) (t : String) (idx : SchemaIndex)
    (dkey : Bytes) (r : Row) : Storage :=
  (insertOp s (indexEntryKey t idx.name (evalExpr idx.expr r) (idBytesOf t dkey)) (.bytesV [])).1

/-- Modelled from the spec (§4.4): `IndexSync::delete_index` removes the
entry of one specific index for one row. -/
def deleteIndexEntry (s : Storage) (t : String) (idx : SchemaIndex)
    (dkey : Bytes) (r : Row) : Storage :=
  (removeOp s (indexEntryKey t idx.name (evalExpr idx.expr r) (idBytesOf t dkey))).1

/-- `insert_index` applied to every scanned row (index_mut.rs:124-126). -/
def insertEntries (t : String) (idx : SchemaIndex) : Storage → List (Bytes × Row) → Storage
  | s, [] => s
  | s, (k, r) :: rest => insertEntries t idx (insertIndexEntry s t idx k r) rest

/-- `delete_index` applied to every scanned row (index_mut.rs:185-187). -/
def deleteEntries (t : String) (idx : SchemaIndex) : Storage → List (Bytes × Row) → Storage
  | s, [] => s
  | s, (k, r) :: rest => deleteEntries t idx (deleteIndexEntry s t idx k r) rest

/-- `create_index` (index_mut.rs:65-135): scan rows outside the
transaction; inside it acquire the lock, read and tombstone the schema
snapshot, reject duplicate names, append the new index with order `Both`,
insert its entry for every scanned row, write the updated snapshot back,
and write the temp marker whose value is the schema key. -/
def create_index (s0 : Storage) (t n : String) (column : OrderByExpr) :
    Storage × Option Error :=
  match scanData s0 t with
  | .error e => (s0, some e)
  | .ok rows =>
      runTx s0 (
        match lockAcquire s0 with
        | .abort s e => .abort s e
        | .ok s txid =>
            match fetchSchema s t with
            | .abort s e => .abort s e
            | .ok s (_skey, none) => .abort s (.TableNotFound t)
            | .ok s (skey, some snap0) =>
                match (snap0.delete txid).2 with
                | none => .abort s (.ConflictTableNotFound t)
                | some sch =>
                    if sch.indexes.any (fun i => i.name == n) then
                      .abort s (.IndexNameAlreadyExists n)
                    else
                      let idx : SchemaIndex := ⟨n, column.expr, .Both⟩
                      let newSch : Schema := ⟨t, sch.column_defs, sch.indexes ++ [idx]⟩
                      let snap2 := ((snap0.delete txid).1).update txid newSch
                      let s := insertEntries t idx s rows
                      let p := insertOp s skey (.snap snap2)
                      let q := insertOp p.1 (tempSchemaKey txid t) (.bytesV skey)
                      .ok q.1 ())

/-- `drop_index` (index_mut.rs:137-196): scan rows outside the
transaction; inside it acquire the lock, read and tombstone the schema
snapshot, partition the indexes on name equality, abort when none
matches, delete the removed index's entry for every scanned row, write
the updated snapshot back, and write the temp marker. -/
def drop_index (s0 : Storage) (t n : String) : Storage × Option Error :=
  match scanData s0 t with
  | .error e => (s0, some e)
  | .ok rows =>
      runTx s0 (
        match lockAcquire s0 with
        | .abort s e => .abort s e
        | .ok s txid =>
            match fetchSchema s t with
            | .abort s e => .abort s e
            | .ok s (_skey, none) => .abort s (.TableNotFound t)
            | .ok s (skey, some snap0) =>
                match (snap0.delete txid).2 with
                | none => .abort s (.ConflictTableNotFound t)
                | some sch =>
                    match (sch.indexes.partition (fun i => i.name == n)).1 with
                    | [] => .abort s (.IndexNameDoesNotExist n)
                    | idx :: _ =>
                        let kept := (sch.indexes.partition (fun i => i.name == n)).2
                        let newSch : Schema := ⟨t, sch.column_defs, kept⟩
                        let snap2 := ((snap0.delete txid).1).update txid newSch
                        let s := deleteEntries t idx s rows
                        let p := insertOp s skey (.snap snap2)
                        let q := insertOp p.1 (tempSchemaKey txid t) (.bytesV skey)
                        .ok q.1 ())

/-- The state committed by a successful `create_index` transaction,
spelled out: lock token installed, entries of the new index inserted for
every scanned row, updated snapshot written to `schema/<table>`, temp
marker written. -/
def createIndexOk (s : Storage) (t n : String) (column : OrderByExpr)
    (rows : List (Bytes × Row)) (sch : Schema) : Storage :=
  let s1 : Storage :=
    { s with kv := setKV s.kv lockKey (.lockV s.lockCounter),
             lockCounter := s.lockCounter + 1,
             accessLog := ((s.accessLog ++ [lockKey]) ++ [lockKey]) ++ [schemaKey t] }
  let idx : SchemaIndex := ⟨n, column.expr, .Both⟩
  let newSch : Schema := ⟨t, sch.column_defs, sch.indexes ++ [idx]⟩
  let s2 := insertEntries t idx s1 rows
  let s3 := (insertOp s2 (schemaKey t) (.snap ⟨s.lockCounter, some newSch⟩)).1
  (insertOp s3 (tempSchemaKey s.lockCounter t) (.bytesV (schemaKey t))).1

/-- The state committed by a successful `drop_index` transaction, where
`idx` is the first index whose name matches. -/
def dropIndexOk (s : Storage) (t n : String)
    (rows : List (Bytes × Row)) (sch : Schema) (idx : SchemaIndex) : Storage :=
  let s1 : Storage :=
    { s with kv := setKV s.kv lockKey (.lockV s.lockCounter),
             lockCounter := s.lockCounter + 1,
             accessLog := ((s.accessLog ++ [lockKey]) ++ [lockKey]) ++ [schemaKey t] }
  let newSch : Schema :=
    ⟨t, sch.column_defs, (sch.indexes.partition (fun i => i.name == n)).2⟩
  let s2 := deleteEntries t idx s1 rows
  let s3 := (insertOp s2 (schemaKey t) (.snap ⟨s.lockCounter, some newSch⟩)).1
  (insertOp s3 (tempSchemaKey s.lockCounter t) (.bytesV (schemaKey t))).1

end IM

/-!
Concrete fixtures used by witnesses and counterexamples.
-/

namespace Fx

def schP0 : SchemaP := ⟨"t", ["a"], []⟩

def schP1 : SchemaP := ⟨"t", ["a"], [("ix", .col 0)]⟩

def schI0 : Schema := ⟨"t", ["a"], []⟩

def schI1 : Schema := ⟨"t", ["a"], [⟨"ix", .col 0, .Both⟩]⟩

def col0 : OrderByExpr := ⟨.col 0, none⟩

def emptyStore : Storage := ⟨[], 0, 0, []⟩

/-- A store of the `index_mut.rs` world: snapshot-wrapped schema for table
`t` (no indexes yet) and one row `[5]` at id 0. -/
def imStore : Storage :=
  ⟨[(schemaKey "t", .snap ⟨0, some schI0⟩), (dataKey "t" 0, .rowV [5])], 1, 1, []⟩

/-- Same store but the schema snapshot already carries index `ix`. -/
def imStore1 : Storage :=
  ⟨[(schemaKey "t", .snap ⟨0, some schI1⟩), (dataKey "t" 0, .rowV [5]),
    (indexEntryKey "t" "ix" 5 (beBytes 0), .bytesV [])], 1, 1, []⟩

/-- A snapshot whose inner value is absent (concurrent drop observed). -/
def imStoreGone : Storage :=
  ⟨[(schemaKey "t", .snap ⟨0, none⟩)], 0, 1, []⟩

/-- A store of the `store_mut.rs` world: raw schema with index `ix` and
one row `[5]` at id 0. -/
def smStore : Storage :=
  ⟨[(schemaKey "t", .schemaRaw schP1), (dataKey "t" 0, .rowV [5]),
    (indexEntryKey "t" "ix" 5 (beBytes 0), .bytesV [])], 1, 0, []⟩

/-- Output state of a successful `IM.create_index` on `imStore`. -/
def imCreateOut : Storage := (IM.create_index imStore "t" "ix" col0).1

/-- Output state of a successful `IM.drop_index` on `imStore1`. -/
def imDropOut : Storage := (IM.drop_index imStore1 "t" "ix").1

/-- Output state of `SM.insert_schema` on the empty store. -/
def smSchemaOut : Storage := (SM.insert_schema emptyStore schP0).1

end Fx

/-!
Basic lemmas about the KV substrate and the key codec.
-/

theorem lookupKV_setKV (kv : KV) (key k2 : Bytes) (v : StoredVal) :
    lookupKV (setKV kv key v) k2 = if key = k2 then some v else lookupKV kv k2 := by
  induction kv with
  | nil => simp [setKV, lookupKV]
  | cons hd rest ih =>
    obtain ⟨k, w⟩ := hd
    by_cases hk : k = key
    · subst hk
      by_cases h2 : k = k2 <;> simp [setKV, lookupKV, h2]
    · by_cases h2 : k = k2
      · subst h2
        have : ¬ key = k := fun h => hk h.symm
        simp [setKV, lookupKV, hk, this]
      · simp [setKV, lookupKV, hk, h2, ih]

theorem lookupKV_removeKV (kv : KV) (key k2 : Bytes) :
    lookupKV (removeKV kv key) k2 = if key = k2 then none else lookupKV kv k2 := by
  induction kv with
  | nil => simp [removeKV, lookupKV]
  | cons hd rest ih =>
    obtain ⟨k, w⟩ := hd
    by_cases hk : k = key
    · subst hk
      by_cases h2 : k = k2
      · subst h2
        simp [removeKV, lookupKV, ih]
      · simp [removeKV, lookupKV, h2, ih]
    · by_cases h2 : k = k2
      · subst h2
        have : ¬ key = k := fun h => hk h.symm
        simp [removeKV, lookupKV, hk, this]
      · simp [removeKV, lookupKV, hk, h2, ih]

theorem setKV_self (kv : KV) (key : Bytes) (v : StoredVal)
    (h : lookupKV kv key = some v) : setKV kv key v = kv := by
  induction kv with
  | nil => simp [lookupKV] at h
  | cons hd rest ih =>
    obtain ⟨k, w⟩ := hd
    by_cases hk : k = key
    · subst hk
      simp [lookupKV] at h
      simp [setKV, h]
    · simp [lookupKV, hk] at h
      simp [setKV, hk, ih h]

theorem strBytes_schema : strBytes "schema/" = [115, 99, 104, 101, 109, 97, 47] := by decide

theorem strBytes_data : strBytes "data/" = [100, 97, 116, 97, 47] := by decide

theorem strBytes_index : strBytes "index/" = [105, 110, 100, 101, 120, 47] := by decide

theorem strBytes_temp :
    strBytes "temp_schema/" = [116, 101, 109, 112, 95, 115, 99, 104, 101, 109, 97, 47] := by
  decide

theorem keyHead_schemaKey (t : String) : keyHead (schemaKey t) = 115 := by
  rw [schemaKey, strBytes_schema]; rfl

theorem keyHead_rowKeyBase_append (t : String) (b : Bytes) :
    keyHead (rowKeyBase t ++ b) = 100 := by
  rw [rowKeyBase, strBytes_data]; rfl

theorem keyHead_dataKey (t : String) (id : Nat) : keyHead (dataKey t id) = 100 := by
  rw [dataKey]; exact keyHead_rowKeyBase_append t (beBytes id)

theorem keyHead_indexEntryKey (t iname : String) (v : Nat) (b : Bytes) :
    keyHead (indexEntryKey t iname v b) = 105 := by
  rw [indexEntryKey, strBytes_index]; rfl

theorem keyHead_tempSchemaKey (txid : Nat) (t : String) :
    keyHead (tempSchemaKey txid t) = 116 := by
  rw [tempSchemaKey, strBytes_temp]; rfl

theorem keyHead_lockKey : keyHead lockKey = 0 := rfl

theorem ne_of_keyHead {k1 k2 : Bytes} (h : keyHead k1 ≠ keyHead k2) : k1 ≠ k2 :=
  fun he => h (congrArg keyHead he)

theorem decodeBe_beBytes (n : Nat) : decodeBe (beBytes n) = n % 2 ^ 64 := by
  simp only [beBytes, decodeBe]
  omega

theorem beBytes_inj {m n : Nat} (hm : m < 2 ^ 64) (hn : n < 2 ^ 64)
    (h : beBytes m = beBytes n) : m = n := by
  have := congrArg decodeBe h
  rw [decodeBe_beBytes, decodeBe_beBytes] at this
  omega

theorem dataKey_inj {t : String} {a b : Nat} (ha : a < 2 ^ 64) (hb : b < 2 ^ 64)
    (h : dataKey t a = dataKey t b) : a = b := by
  rw [dataKey, dataKey] at h
  exact beBytes_inj ha hb (List.append_cancel_left h)

theorem idBytesOf_dataKey (t : String) (id : Nat) :
    idBytesOf t (rowKeyBase t ++ beBytes id) = beBytes id := by
  simp [idBytesOf]

theorem lockKey_ne_schemaKey (t : String) : lockKey ≠ schemaKey t :=
  ne_of_keyHead (by rw [keyHead_lockKey, keyHead_schemaKey]; decide)

theorem schemaKey_ne_lockKey (t : String) : schemaKey t ≠ lockKey :=
  (lockKey_ne_schemaKey t).symm

theorem tempKey_ne_schemaKey (txid : Nat) (t t2 : String) :
    tempSchemaKey txid t ≠ schemaKey t2 :=
  ne_of_keyHead (by rw [keyHead_tempSchemaKey, keyHead_schemaKey]; decide)

theorem tempKey_ne_lockKey (txid : Nat) (t : String) : tempSchemaKey txid t ≠ lockKey :=
  ne_of_keyHead (by rw [keyHead_tempSchemaKey, keyHead_lockKey]; decide)

theorem entryKey_ne_schemaKey (t iname : String) (v : Nat) (b : Bytes) (t2 : String) :
    indexEntryKey t iname v b ≠ schemaKey t2 :=
  ne_of_keyHead (by rw [keyHead_indexEntryKey, keyHead_schemaKey]; decide)

theorem entryKey_ne_lockKey (t iname : String) (v : Nat) (b : Bytes) :
    indexEntryKey t iname v b ≠ lockKey :=
  ne_of_keyHead (by rw [keyHead_indexEntryKey, keyHead_lockKey]; decide)

theorem entryKey_ne_tempKey (t iname : String) (v : Nat) (b : Bytes)
    (txid : Nat) (t2 : String) : indexEntryKey t iname v b ≠ tempSchemaKey txid t2 :=
  ne_of_keyHead (by rw [keyHead_indexEntryKey, keyHead_tempSchemaKey]; decide)

theorem entryKey_ne_dataKey (t iname : String) (v : Nat) (b : Bytes)
    (t2 : String) (b2 : Bytes) : indexEntryKey t iname v b ≠ rowKeyBase t2 ++ b2 :=
  ne_of_keyHead (by rw [keyHead_indexEntryKey, keyHead_rowKeyBase_append]; decide)

theorem dataKey_ne_schemaKey (t : String) (b : Bytes) (t2 : String) :
    rowKeyBase t ++ b ≠ schemaKey t2 :=
  ne_of_keyHead (by rw [keyHead_rowKeyBase_append, keyHead_schemaKey]; decide)

theorem dataKey_ne_lockKey (t : String) (b : Bytes) : rowKeyBase t ++ b ≠ lockKey :=
  ne_of_keyHead (by rw [keyHead_rowKeyBase_append, keyHead_lockKey]; decide)

theorem schemaKey_ne_dataKey (t2 t : String) (b : Bytes) :
    schemaKey t2 ≠ rowKeyBase t ++ b :=
  (dataKey_ne_schemaKey t b t2).symm

/-!
Lock acquisition (spec §4.3).
-/

theorem lockAcquire_ok (s : Storage) (h : lockLive s = false) :
    lockAcquire s =
      .ok { s with kv := setKV s.kv lockKey (.lockV s.lockCounter),
                   lockCounter := s.lockCounter + 1,
                   accessLog := (s.accessLog ++ [lockKey]) ++ [lockKey] }
          s.lockCounter := by
  rw [lockLive] at h
  rw [lockAcquire]
  cases hv : lookupKV s.kv lockKey with
  | none => simp [getOp, insertOp, hv]
  | some v =>
    rw [hv] at h
    cases v with
    | lockV t =>
        simp only [decide_eq_false_iff_not] at h
        simp [getOp, insertOp, hv, h]
    | schemaRaw a => simp at h
    | snap a => simp at h
    | rowV a => simp at h
    | bytesV a => simp at h

theorem lockAcquire_abort (s : Storage) (h : lockLive s = true) :
    lockAcquire s =
      .abort { s with accessLog := s.accessLog ++ [lockKey] } .LockConflict := by
  rw [lockLive] at h
  rw [lockAcquire]
  cases hv : lookupKV s.kv lockKey with
  | none => rw [hv] at h; simp at h
  | some v =>
    rw [hv] at h
    cases v with
    | lockV t =>
        simp only [decide_eq_true_eq] at h
        simp [getOp, hv, h]
    | schemaRaw a => simp [getOp, hv]
    | snap a => simp [getOp, hv]
    | rowV a => simp [getOp, hv]
    | bytesV a => simp [getOp, hv]

theorem lockAcquire_ok_inv (s s1 : Storage) (txid : Nat)
    (h : lockAcquire s = .ok s1 txid) :
    lockLive s = false ∧ txid = s.lockCounter ∧
    s1 = { s with kv := setKV s.kv lockKey (.lockV s.lockCounter),
                  lockCounter := s.lockCounter + 1,
                  accessLog := (s.accessLog ++ [lockKey]) ++ [lockKey] } := by
  by_cases hl : lockLive s = true
  · rw [lockAcquire_abort s hl] at h
    exact absurd h (by simp)
  · have hl' : lockLive s = false := by
      cases hb : lockLive s
      · rfl
      · exact absurd hb hl
    rw [lockAcquire_ok s hl'] at h
    injection h with h1 h2
    exact ⟨hl', h2.symm, h1.symm⟩

/-!
`fetch_schema` of `index_mut.rs`.
-/

theorem IM.fetchSchema_none (s : Storage) (t : String)
    (h : lookupKV s.kv (schemaKey t) = none) :
    IM.fetchSchema s t =
      .ok { s with accessLog := s.accessLog ++ [schemaKey t] } (schemaKey t, none) := by
  simp [IM.fetchSchema, getOp, h]

theorem IM.fetchSchema_snap (s : Storage) (t : String) (sn : Snapshot Schema)
    (h : lookupKV s.kv (schemaKey t) = some (.snap sn)) :
    IM.fetchSchema s t =
      .ok { s with accessLog := s.accessLog ++ [schemaKey t] } (schemaKey t, some sn) := by
  simp [IM.fetchSchema, getOp, h]

theorem IM.fetchSchema_raw (s : Storage) (t : String) (sch : SchemaP)
    (h : lookupKV s.kv (schemaKey t) = some (.schemaRaw sch)) :
    IM.fetchSchema s t =
      .abort { s with accessLog := s.accessLog ++ [schemaKey t] } .SerializationError := by
  simp [IM.fetchSchema, getOp, h]

/-!
Entry folds of `index_mut.rs`: frame, persistence and membership lemmas.
-/

theorem IM.insertEntries_counters (t : String) (idx : SchemaIndex) :
    ∀ (rows : List (Bytes × Row)) (s : Storage),
      (IM.insertEntries t idx s rows).idCounter = s.idCounter ∧
      (IM.insertEntries t idx s rows).lockCounter = s.lockCounter
  | [], s => ⟨rfl, rfl⟩
  | (k, r) :: rest, s => by
      have ih := IM.insertEntries_counters t idx rest (IM.insertIndexEntry s t idx k r)
      simpa [IM.insertEntries, IM.insertIndexEntry, insertOp] using ih

theorem IM.insertEntries_log (t : String) (idx : SchemaIndex) :
    ∀ (rows : List (Bytes × Row)) (s : Storage),
      ∃ l2, (IM.insertEntries t idx s rows).accessLog = s.accessLog ++ l2 ∧
        ∀ x ∈ l2, keyHead x = 105
  | [], s => ⟨[], by simp [IM.insertEntries]⟩
  | (k, r) :: rest, s => by
      obtain ⟨l2, hl, hx⟩ := IM.insertEntries_log t idx rest (IM.insertIndexEntry s t idx k r)
      refine ⟨[indexEntryKey t idx.name (evalExpr idx.expr r) (idBytesOf t k)] ++ l2, ?_, ?_⟩
      · simp only [IM.insertEntries, hl]
        simp [IM.insertIndexEntry, insertOp]
      · intro x hx2
        rcases List.mem_append.mp hx2 with h1 | h2
        · rcases List.mem_singleton.mp h1 with rfl
          exact keyHead_indexEntryKey t idx.name _ _
        · exact hx x h2

theorem IM.insertEntries_frame (t : String) (idx : SchemaIndex) :
    ∀ (rows : List (Bytes × Row)) (s : Storage) (K : Bytes), keyHead K ≠ 105 →
      lookupKV (IM.insertEntries t idx s rows).kv K = lookupKV s.kv K
  | [], _, _, _ => rfl
  | (k, r) :: rest, s, K, hK => by
      rw [IM.insertEntries, IM.insertEntries_frame t idx rest _ K hK]
      rw [IM.insertIndexEntry]
      simp only [insertOp]
      rw [lookupKV_setKV, if_neg]
      intro he
      exact hK (he ▸ keyHead_indexEntryKey t idx.name (evalExpr idx.expr r) (idBytesOf t k))

theorem IM.insertEntries_keeps (t : String) (idx : SchemaIndex) :
    ∀ (rows : List (Bytes × Row)) (s : Storage) (K : Bytes),
      lookupKV s.kv K = some (.bytesV []) →
      lookupKV (IM.insertEntries t idx s rows).kv K = some (.bytesV [])
  | [], _, _, h => h
  | (k, r) :: rest, s, K, h => by
      rw [IM.insertEntries]
      apply IM.insertEntries_keeps t idx rest _ K
      rw [IM.insertIndexEntry]
      simp only [insertOp]
      rw [lookupKV_setKV]
      by_cases he : indexEntryKey t idx.name (evalExpr idx.expr r) (idBytesOf t k) = K
      · rw [if_pos he]
      · rw [if_neg he]; exact h

theorem IM.insertEntries_mem (t : String) (idx : SchemaIndex) :
    ∀ (rows : List (Bytes × Row)) (s : Storage) (k : Bytes) (r : Row),
      (k, r) ∈ rows →
      lookupKV (IM.insertEntries t idx s rows).kv
        (indexEntryKey t idx.name (evalExpr idx.expr r) (idBytesOf t k)) =
        some (.bytesV [])
  | [], _, _, _, h => absurd h (List.not_mem_nil _)
  | (k0, r0) :: rest, s, k, r, h => by
      rcases List.mem_cons.mp h with h1 | h2
      · obtain ⟨rfl, rfl⟩ := Prod.mk.injEq .. ▸ h1
        rw [IM.insertEntries]
        apply IM.insertEntries_keeps
        rw [IM.insertIndexEntry]
        simp only [insertOp]
        rw [lookupKV_setKV, if_pos rfl]
      · rw [IM.insertEntries]
        exact IM.insertEntries_mem t idx rest _ k r h2

theorem IM.deleteEntries_counters (t : String) (idx : SchemaIndex) :
    ∀ (rows : List (Bytes × Row)) (s : Storage),
      (IM.deleteEntries t idx s rows).idCounter = s.idCounter ∧
      (IM.deleteEntries t idx s rows).lockCounter = s.lockCounter
  | [], s => ⟨rfl, rfl⟩
  | (k, r) :: rest, s => by
      have ih := IM.deleteEntries_counters t idx rest (IM.deleteIndexEntry s t idx k r)
      simpa [IM.deleteEntries, IM.deleteIndexEntry, removeOp] using ih

theorem IM.deleteEntries_log (t : String) (idx : SchemaIndex) :
    ∀ (rows : List (Bytes × Row)) (s : Storage),
      ∃ l2, (IM.deleteEntries t idx s rows).accessLog = s.accessLog ++ l2 ∧
        ∀ x ∈ l2, keyHead x = 105
  | [], s => ⟨[], by simp [IM.deleteEntries]⟩
  | (k, r) :: rest, s => by
      obtain ⟨l2, hl, hx⟩ := IM.deleteEntries_log t idx rest (IM.deleteIndexEntry s t idx k r)
      refine ⟨[indexEntryKey t idx.name (evalExpr idx.expr r) (idBytesOf t k)] ++ l2, ?_, ?_⟩
      · simp only [IM.deleteEntries, hl]
        simp [IM.deleteIndexEntry, removeOp]
      · intro x hx2
        rcases List.mem_append.mp hx2 with h1 | h2
        · rcases List.mem_singleton.mp h1 with rfl
          exact keyHead_indexEntryKey t idx.name _ _
        · exact hx x h2

theorem IM.deleteEntries_frame (t : String) (idx : SchemaIndex) :
    ∀ (rows : List (Bytes × Row)) (s : Storage) (K : Bytes), keyHead K ≠ 105 →
      lookupKV (IM.deleteEntries t idx s rows).kv K = lookupKV s.kv K
  | [], _, _, _ => rfl
  | (k, r) :: rest, s, K, hK => by
      rw [IM.deleteEntries, IM.deleteEntries_frame t idx rest _ K hK]
      rw [IM.deleteIndexEntry]
      simp only [removeOp]
      rw [lookupKV_removeKV, if_neg]
      intro he
      exact hK (he ▸ keyHead_indexEntryKey t idx.name (evalExpr idx.expr r) (idBytesOf t k))

theorem IM.deleteEntries_keeps_none (t : String) (idx : SchemaIndex) :
    ∀ (rows : List (Bytes × Row)) (s : Storage) (K : Bytes),
      lookupKV s.kv K = none →
      lookupKV (IM.deleteEntries t idx s rows).kv K = none
  | [], _, _, h => h
  | (k, r) :: rest, s, K, h => by
      rw [IM.deleteEntries]
      apply IM.deleteEntries_keeps_none t idx rest _ K
      rw [IM.deleteIndexEntry]
      simp only [removeOp]
      rw [lookupKV_removeKV]
      by_cases he : indexEntryKey t idx.name (evalExpr idx.expr r) (idBytesOf t k) = K
      · rw [if_pos he]
      · rw [if_neg he]; exact h

theorem IM.deleteEntries_mem (t : String) (idx : SchemaIndex) :
    ∀ (rows : List (Bytes × Row)) (s : Storage) (k : Bytes) (r : Row),
      (k, r) ∈ rows →
      lookupKV (IM.deleteEntries t idx s rows).kv
        (indexEntryKey t idx.name (evalExpr idx.expr r) (idBytesOf t k)) = none
  | [], _, _, _, h => absurd h (List.not_mem_nil _)
  | (k0, r0) :: rest, s, k, r, h => by
      rcases List.mem_cons.mp h with h1 | h2
      · obtain ⟨rfl, rfl⟩ := Prod.mk.injEq .. ▸ h1
        rw [IM.deleteEntries]
        apply IM.deleteEntries_keeps_none
        rw [IM.deleteIndexEntry]
        simp only [removeOp]
        rw [lookupKV_removeKV, if_pos rfl]
      · rw [IM.deleteEntries]
        exact IM.deleteEntries_mem t idx rest _ k r h2

/-!
Characterization of `IM.create_index`: the one successful execution path
and the inversion of a successful call.
-/

theorem IM.create_index_run (s : Storage) (t n : String) (column : OrderByExpr)
    (rows : List (Bytes × Row)) (snap0 : Snapshot Schema) (sch : Schema)
    (hscan : scanData s t = .ok rows)
    (hlock : lockLive s = false)
    (hsch : lookupKV s.kv (schemaKey t) = some (.snap snap0))
    (hval : snap0.value = some sch)
    (hdup : sch.indexes.any (fun i => i.name == n) = false) :
    IM.create_index s t n column = (IM.createIndexOk s t n column rows sch, none) := by
  have hlook1 : lookupKV (setKV s.kv lockKey (.lockV s.lockCounter)) (schemaKey t)
      = some (.snap snap0) := by
    rw [lookupKV_setKV, if_neg (lockKey_ne_schemaKey t), hsch]
  simp only [IM.create_index, hscan, lockAcquire_ok s hlock, IM.fetchSchema, getOp,
    hlook1, Snapshot.delete, hval, hdup, Snapshot.update, runTx, IM.createIndexOk,
    Bool.false_eq_true, if_false]

theorem IM.create_index_ok_inv (s : Storage) (t n : String) (column : OrderByExpr)
    (s' : Storage) (h : IM.create_index s t n column = (s', none)) :
    ∃ rows snap0 sch,
      scanData s t = .ok rows ∧ lockLive s = false ∧
      lookupKV s.kv (schemaKey t) = some (.snap snap0) ∧
      snap0.value = some sch ∧
      sch.indexes.any (fun i => i.name == n) = false ∧
      s' = IM.createIndexOk s t n column rows sch := by
  cases hscan : scanData s t with
  | error e =>
      rw [IM.create_index, hscan] at h
      simp at h
  | ok rows =>
      by_cases hl : lockLive s = true
      · rw [IM.create_index, hscan, lockAcquire_abort s hl] at h
        simp [runTx] at h
      · have hlock : lockLive s = false := by
          cases hb : lockLive s
          · rfl
          · exact absurd hb hl
        have hlook1 : lookupKV (setKV s.kv lockKey (.lockV s.lockCounter)) (schemaKey t)
            = lookupKV s.kv (schemaKey t) := by
          rw [lookupKV_setKV, if_neg (lockKey_ne_schemaKey t)]
        cases hsch : lookupKV s.kv (schemaKey t) with
        | none =>
            rw [IM.create_index, hscan, lockAcquire_ok s hlock] at h
            simp only [IM.fetchSchema, getOp, hlook1, hsch, runTx] at h
            simp at h
        | some v =>
            cases v with
            | snap snap0 =>
                cases hval : snap0.value with
                | none =>
                    rw [IM.create_index, hscan, lockAcquire_ok s hlock] at h
                    simp only [IM.fetchSchema, getOp, hlook1, hsch, Snapshot.delete,
                      hval, runTx] at h
                    simp at h
                | some sch =>
                    cases hdup : sch.indexes.any (fun i => i.name == n) with
                    | true =>
                        rw [IM.create_index, hscan, lockAcquire_ok s hlock] at h
                        simp only [IM.fetchSchema, getOp, hlook1, hsch, Snapshot.delete,
                          hval, hdup, if_true, runTx] at h
                        simp at h
                    | false =>
                        rw [IM.create_index_run s t n column rows snap0 sch hscan hlock
                          hsch hval hdup] at h
                        refine ⟨rows, snap0, sch, rfl, hlock, rfl, hval, hdup, ?_⟩
                        exact (Prod.mk.injEq .. ▸ h).1.symm
            | schemaRaw a =>
                rw [IM.create_index, hscan, lockAcquire_ok s hlock] at h
                simp only [IM.fetchSchema, getOp, hlook1, hsch, runTx] at h
                simp at h
            | rowV a =>
                rw [IM.create_index, hscan, lockAcquire_ok s hlock] at h
                simp only [IM.fetchSchema, getOp, hlook1, hsch, runTx] at h
                simp at h
            | bytesV a =>
                rw [IM.create_index, hscan, lockAcquire_ok s hlock] at h
                simp only [IM.fetchSchema, getOp, hlook1, hsch, runTx] at h
                simp at h
            | lockV a =>
                rw [IM.create_index, hscan, lockAcquire_ok s hlock] at h
                simp only [IM.fetchSchema, getOp, hlook1, hsch, runTx] at h
                simp at h

/-!
Characterization of `IM.drop_index`.
-/

theorem IM.drop_index_run (s : Storage) (t n : String)
    (rows : List (Bytes × Row)) (snap0 : Snapshot Schema) (sch : Schema)
    (idx : SchemaIndex) (restIdx : List SchemaIndex)
    (hscan : scanData s t = .ok rows)
    (hlock : lockLive s = false)
    (hsch : lookupKV s.kv (schemaKey t) = some (.snap snap0))
    (hval : snap0.value = some sch)
    (hpart : (sch.indexes.partition (fun i => i.name == n)).1 = idx :: restIdx) :
    IM.drop_index s t n = (IM.dropIndexOk s t n rows sch idx, none) := by
  have hlook1 : lookupKV (setKV s.kv lockKey (.lockV s.lockCounter)) (schemaKey t)
      = some (.snap snap0) := by
    rw [lookupKV_setKV, if_neg (lockKey_ne_schemaKey t), hsch]
  simp only [IM.drop_index, hscan, lockAcquire_ok s hlock, IM.fetchSchema, getOp,
    hlook1, Snapshot.delete, hval, hpart, Snapshot.update, runTx, IM.dropIndexOk]

theorem IM.drop_index_nomatch (s : Storage) (t n : String)
    (rows : List (Bytes × Row)) (snap0 : Snapshot Schema) (sch : Schema)
    (hscan : scanData s t = .ok rows)
    (hlock : lockLive s = false)
    (hsch : lookupKV s.kv (schemaKey t) = some (.snap snap0))
    (hval : snap0.value = some sch)
    (hpart : (sch.indexes.partition (fun i => i.name == n)).1 = []) :
    IM.drop_index s t n =
      ((IM.drop_index s t n).1, some (.IndexNameDoesNotExist n)) ∧
      (IM.drop_index s t n).1.kv = s.kv := by
  have hlook1 : lookupKV (setKV s.kv lockKey (.lockV s.lockCounter)) (schemaKey t)
      = some (.snap snap0) := by
    rw [lookupKV_setKV, if_neg (lockKey_ne_schemaKey t), hsch]
  have hrun : IM.drop_index s t n =
      ({ s with lockCounter := s.lockCounter + 1,
                accessLog := ((s.accessLog ++ [lockKey]) ++ [lockKey]) ++ [schemaKey t] },
        some (.IndexNameDoesNotExist n)) := by
    simp only [IM.drop_index, hscan, lockAcquire_ok s hlock, IM.fetchSchema, getOp,
      hlook1, Snapshot.delete, hval, hpart, runTx]
  rw [hrun]
  exact ⟨rfl, rfl⟩

theorem IM.drop_index_ok_inv (s : Storage) (t n : String)
    (s' : Storage) (h : IM.drop_index s t n = (s', none)) :
    ∃ rows snap0 sch idx restIdx,
      scanData s t = .ok rows ∧ lockLive s = false ∧
      lookupKV s.kv (schemaKey t) = some (.snap snap0) ∧
      snap0.value = some sch ∧
      (sch.indexes.partition (fun i => i.name == n)).1 = idx :: restIdx ∧
      s' = IM.dropIndexOk s t n rows sch idx := by
  cases hscan : scanData s t with
  | error e =>
      rw [IM.drop_index, hscan] at h
      simp at h
  | ok rows =>
      by_cases hl : lockLive s = true
      · rw [IM.drop_index, hscan, lockAcquire_abort s hl] at h
        simp [runTx] at h
      · have hlock : lockLive s = false := by
          cases hb : lockLive s
          · rfl
          · exact absurd hb hl
        have hlook1 : lookupKV (setKV s.kv lockKey (.lockV s.lockCounter)) (schemaKey t)
            = lookupKV s.kv (schemaKey t) := by
          rw [lookupKV_setKV, if_neg (lockKey_ne_schemaKey t)]
        cases hsch : lookupKV s.kv (schemaKey t) with
        | none =>
            rw [IM.drop_index, hscan, lockAcquire_ok s hlock] at h
            simp only [IM.fetchSchema, getOp, hlook1, hsch, runTx] at h
            simp at h
        | some v =>
            cases v with
            | snap snap0 =>
                cases hval : snap0.value with
                | none =>
                    rw [IM.drop_index, hscan, lockAcquire_ok s hlock] at h
                    simp only [IM.fetchSchema, getOp, hlook1, hsch, Snapshot.delete,
                      hval, runTx] at h
                    simp at h
                | some sch =>
                    cases hpart : (sch.indexes.partition (fun i => i.name == n)).1 with
                    | nil =>
                        rw [IM.drop_index, hscan, lockAcquire_ok s hlock] at h
                        simp only [IM.fetchSchema, getOp, hlook1, hsch, Snapshot.delete,
                          hval, hpart, runTx] at h
                        simp at h
                    | cons idx restIdx =>
                        rw [IM.drop_index_run s t n rows snap0 sch idx restIdx hscan
                          hlock hsch hval hpart] at h
                        refine ⟨rows, snap0, sch, idx, restIdx, rfl, hlock, rfl, hval,
                          hpart, ?_⟩
                        exact (Prod.mk.injEq .. ▸ h).1.symm
            | schemaRaw a =>
                rw [IM.drop_index, hscan, lockAcquire_ok s hlock] at h
                simp only [IM.fetchSchema, getOp, hlook1, hsch, runTx] at h
                simp at h
            | rowV a =>
                rw [IM.drop_index, hscan, lockAcquire_ok s hlock] at h
                simp only [IM.fetchSchema, getOp, hlook1, hsch, runTx] at h
                simp at h
            | bytesV a =>
                rw [IM.drop_index, hscan, lockAcquire_ok s hlock] at h
                simp only [IM.fetchSchema, getOp, hlook1, hsch, runTx] at h
                simp at h
            | lockV a =>
                rw [IM.drop_index, hscan, lockAcquire_ok s hlock] at h
                simp only [IM.fetchSchema, getOp, hlook1, hsch, runTx] at h
                simp at h

/-!
Error paths of `IM.create_index` (index_mut.rs:76-98): each aborts the
transaction, so the keyspace is exactly the one at call time.
-/

theorem IM.create_index_table_not_found (s : Storage) (t n : String)
    (column : OrderByExpr) (rows : List (Bytes × Row))
    (hscan : scanData s t = .ok rows)
    (hlock : lockLive s = false)
    (hsch : lookupKV s.kv (schemaKey t) = none) :
    (IM.create_index s t n column).2 = some (.TableNotFound t) ∧
    (IM.create_index s t n column).1.kv = s.kv := by
  have hlook1 : lookupKV (setKV s.kv lockKey (.lockV s.lockCounter)) (schemaKey t)
      = (none : Option StoredVal) := by
    rw [lookupKV_setKV, if_neg (lockKey_ne_schemaKey t), hsch]
  have hrun : IM.create_index s t n column =
      ({ s with lockCounter := s.lockCounter + 1,
                accessLog := ((s.accessLog ++ [lockKey]) ++ [lockKey]) ++ [schemaKey t] },
        some (.TableNotFound t)) := by
    simp only [IM.create_index, hscan, lockAcquire_ok s hlock, IM.fetchSchema, getOp,
      hlook1, runTx]
  rw [hrun]
  exact ⟨rfl, rfl⟩

theorem IM.create_index_conflict_table (s : Storage) (t n : String)
    (column : OrderByExpr) (rows : List (Bytes × Row)) (snap0 : Snapshot Schema)
    (hscan : scanData s t = .ok rows)
    (hlock : lockLive s = false)
    (hsch : lookupKV s.kv (schemaKey t) = some (.snap snap0))
    (hval : snap0.value = none) :
    (IM.create_index s t n column).2 = some (.ConflictTableNotFound t) ∧
    (IM.create_index s t n column).1.kv = s.kv := by
  have hlook1 : lookupKV (setKV s.kv lockKey (.lockV s.lockCounter)) (schemaKey t)
      = some (.snap snap0) := by
    rw [lookupKV_setKV, if_neg (lockKey_ne_schemaKey t), hsch]
  have hrun : IM.create_index s t n column =
      ({ s with lockCounter := s.lockCounter + 1,
                accessLog := ((s.accessLog ++ [lockKey]) ++ [lockKey]) ++ [schemaKey t] },
        some (.ConflictTableNotFound t)) := by
    simp only [IM.create_index, hscan, lockAcquire_ok s hlock, IM.fetchSchema, getOp,
      hlook1, Snapshot.delete, hval, runTx]
  rw [hrun]
  exact ⟨rfl, rfl⟩

theorem IM.create_index_dup_name (s : Storage) (t n : String)
    (column : OrderByExpr) (rows : List (Bytes × Row)) (snap0 : Snapshot Schema)
    (sch : Schema)
    (hscan : scanData s t = .ok rows)
    (hlock : lockLive s = false)
    (hsch : lookupKV s.kv (schemaKey t) = some (.snap snap0))
    (hval : snap0.value = some sch)
    (hdup : sch.indexes.any (fun i => i.name == n) = true) :
    (IM.create_index s t n column).2 = some (.IndexNameAlreadyExists n) ∧
    (IM.create_index s t n column).1.kv = s.kv := by
  have hlook1 : lookupKV (setKV s.kv lockKey (.lockV s.lockCounter)) (schemaKey t)
      = some (.snap snap0) := by
    rw [lookupKV_setKV, if_neg (lockKey_ne_schemaKey t), hsch]
  have hrun : IM.create_index s t n column =
      ({ s with lockCounter := s.lockCounter + 1,
                accessLog := ((s.accessLog ++ [lockKey]) ++ [lockKey]) ++ [schemaKey t] },
        some (.IndexNameAlreadyExists n)) := by
    simp only [IM.create_index, hscan, lockAcquire_ok s hlock, IM.fetchSchema, getOp,
      hlook1, Snapshot.delete, hval, hdup, if_true, runTx]
  rw [hrun]
  exact ⟨rfl, rfl⟩

/-!
Error paths of the legacy `SM.create_index` (store_mut.rs:188-242): the
checks run before the transaction and return with the keyspace untouched.
-/

theorem SM.create_index_absent_table (s : Storage) (t n : String) (ex : Expr)
    (hsch : lookupKV s.kv (schemaKey t) = none) :
    (SM.create_index s t n ex).2 = some (.TableNotFound t) ∧
    (SM.create_index s t n ex).1.kv = s.kv := by
  have hrun : SM.create_index s t n ex =
      ({ s with accessLog := s.accessLog ++ [schemaKey t] }, some (.TableNotFound t)) := by
    simp only [SM.create_index, SM.fetchSchemaRaw, getOp, hsch]
  rw [hrun]
  exact ⟨rfl, rfl⟩

theorem SM.create_index_existing_name (s : Storage) (t n : String) (ex : Expr)
    (sch : SchemaP)
    (hsch : lookupKV s.kv (schemaKey t) = some (.schemaRaw sch))
    (hdup : sch.indexes.any (fun ne => ne.1 == n) = true) :
    (SM.create_index s t n ex).2 = some (.IndexNameAlreadyExists n) ∧
    (SM.create_index s t n ex).1.kv = s.kv := by
  have hrun : SM.create_index s t n ex =
      ({ s with accessLog := s.accessLog ++ [schemaKey t] },
        some (.IndexNameAlreadyExists n)) := by
    simp only [SM.create_index, SM.fetchSchemaRaw, getOp, hsch, hdup, if_true]
  rw [hrun]
  exact ⟨rfl, rfl⟩

/-!
The transaction wrapper and `IndexSync::new` of the `store_mut.rs` world.
-/

theorem runTx_err_kv (s : Storage) (r : TxResult Unit) (s' : Storage) (e : Error)
    (h : runTx s r = (s', some e)) : s'.kv = s.kv := by
  cases r with
  | ok tr a => simp [runTx] at h
  | abort tr e2 =>
      have h1 := (Prod.mk.injEq .. ▸ h).1
      rw [← h1]

theorem runTx_ok (s : Storage) (r : TxResult Unit) (s' : Storage)
    (h : runTx s r = (s', none)) : r = .ok s' () := by
  cases r with
  | ok tr a => cases a; simp [runTx] at h; rw [h]
  | abort tr e2 => simp [runTx] at h

theorem SM.newIndexSync_fst (s : Storage) (t : String) :
    (SM.newIndexSync s t).1 = { s with accessLog := s.accessLog ++ [schemaKey t] } := by
  rw [SM.newIndexSync]
  cases hv : lookupKV s.kv (schemaKey t) with
  | none => simp [getOp, hv]
  | some v => cases v <;> simp [getOp, hv]

theorem SM.newIndexSync_raw (s : Storage) (t : String) (sch : SchemaP)
    (h : lookupKV s.kv (schemaKey t) = some (.schemaRaw sch)) :
    SM.newIndexSync s t =
      ({ s with accessLog := s.accessLog ++ [schemaKey t] }, .ok sch.indexes) := by
  simp [SM.newIndexSync, getOp, h]

/-!
Per-row index maintenance folds of `store_mut.rs` (`IndexSync` view).
-/

theorem SM.syncInsertRow_counters (t : String) (k : Bytes) (r : Row) :
    ∀ (sync : List (String × Expr)) (s : Storage),
      (SM.syncInsertRow t sync s k r).idCounter = s.idCounter ∧
      (SM.syncInsertRow t sync s k r).lockCounter = s.lockCounter
  | [], _ => ⟨rfl, rfl⟩
  | ne :: rest, s => by
      have step : SM.syncInsertRow t (ne :: rest) s k r
          = SM.syncInsertRow t rest
              ((insertOp s (indexEntryKey t ne.1 (evalExpr ne.2 r) (idBytesOf t k))
                (.bytesV [])).1) k r := by
        simp [SM.syncInsertRow]
      rw [step]
      have ih := SM.syncInsertRow_counters t k r rest
        ((insertOp s (indexEntryKey t ne.1 (evalExpr ne.2 r) (idBytesOf t k)) (.bytesV [])).1)
      simpa [insertOp] using ih

theorem SM.syncInsertRow_log (t : String) (k : Bytes) (r : Row) :
    ∀ (sync : List (String × Expr)) (s : Storage),
      ∃ l2, (SM.syncInsertRow t sync s k r).accessLog = s.accessLog ++ l2 ∧
        ∀ x ∈ l2, keyHead x = 105
  | [], s => ⟨[], by simp [SM.syncInsertRow]⟩
  | ne :: rest, s => by
      have step : SM.syncInsertRow t (ne :: rest) s k r
          = SM.syncInsertRow t rest
              ((insertOp s (indexEntryKey t ne.1 (evalExpr ne.2 r) (idBytesOf t k))
                (.bytesV [])).1) k r := by
        simp [SM.syncInsertRow]
      rw [step]
      obtain ⟨l2, hl, hx⟩ := SM.syncInsertRow_log t k r rest _
      refine ⟨[indexEntryKey t ne.1 (evalExpr ne.2 r) (idBytesOf t k)] ++ l2, ?_, ?_⟩
      · rw [hl]; simp [insertOp]
      · intro x hx2
        rcases List.mem_append.mp hx2 with h1 | h2
        · rcases List.mem_singleton.mp h1 with rfl
          exact keyHead_indexEntryKey t ne.1 _ _
        · exact hx x h2

theorem SM.syncInsertRow_frame (t : String) (k : Bytes) (r : Row) :
    ∀ (sync : List (String × Expr)) (s : Storage) (K : Bytes), keyHead K ≠ 105 →
      lookupKV (SM.syncInsertRow t sync s k r).kv K = lookupKV s.kv K
  | [], _, _, _ => rfl
  | ne :: rest, s, K, hK => by
      have step : SM.syncInsertRow t (ne :: rest) s k r
          = SM.syncInsertRow t rest
              ((insertOp s (indexEntryKey t ne.1 (evalExpr ne.2 r) (idBytesOf t k))
                (.bytesV [])).1) k r := by
        simp [SM.syncInsertRow]
      rw [step, SM.syncInsertRow_frame t k r rest _ K hK]
      simp only [insertOp]
      rw [lookupKV_setKV, if_neg]
      intro he
      exact hK (he ▸ keyHead_indexEntryKey t ne.1 (evalExpr ne.2 r) (idBytesOf t k))

theorem SM.syncInsertRow_keeps (t : String) (k : Bytes) (r : Row) :
    ∀ (sync : List (String × Expr)) (s : Storage) (K : Bytes),
      lookupKV s.kv K = some (.bytesV []) →
      lookupKV (SM.syncInsertRow t sync s k r).kv K = some (.bytesV [])
  | [], _, _, h => h
  | ne :: rest, s, K, h => by
      have step : SM.syncInsertRow t (ne :: rest) s k r
          = SM.syncInsertRow t rest
              ((insertOp s (indexEntryKey t ne.1 (evalExpr ne.2 r) (idBytesOf t k))
                (.bytesV [])).1) k r := by
        simp [SM.syncInsertRow]
      rw [step]
      apply SM.syncInsertRow_keeps t k r rest _ K
      simp only [insertOp]
      rw [lookupKV_setKV]
      by_cases he : indexEntryKey t ne.1 (evalExpr ne.2 r) (idBytesOf t k) = K
      · rw [if_pos he]
      · rw [if_neg he]; exact h

theorem SM.syncInsertRow_mem (t : String) (k : Bytes) (r : Row) :
    ∀ (sync : List (String × Expr)) (s : Storage) (ne : String × Expr), ne ∈ sync →
      lookupKV (SM.syncInsertRow t sync s k r).kv
        (indexEntryKey t ne.1 (evalExpr ne.2 r) (idBytesOf t k)) = some (.bytesV [])
  | [], _, _, h => absurd h (List.not_mem_nil _)
  | ne0 :: rest, s, ne, h => by
      have step : SM.syncInsertRow t (ne0 :: rest) s k r
          = SM.syncInsertRow t rest
              ((insertOp s (indexEntryKey t ne0.1 (evalExpr ne0.2 r) (idBytesOf t k))
                (.bytesV [])).1) k r := by
        simp [SM.syncInsertRow]
      rcases List.mem_cons.mp h with h1 | h2
      · subst h1
        rw [step]
        apply SM.syncInsertRow_keeps
        simp only [insertOp]
        rw [lookupKV_setKV, if_pos rfl]
      · rw [step]
        exact SM.syncInsertRow_mem t k r rest _ ne h2

theorem SM.syncDeleteRow_counters (t : String) (k : Bytes) (r : Row) :
    ∀ (sync : List (String × Expr)) (s : Storage),
      (SM.syncDeleteRow t sync s k r).idCounter = s.idCounter ∧
      (SM.syncDeleteRow t sync s k r).lockCounter = s.lockCounter
  | [], _ => ⟨rfl, rfl⟩
  | ne :: rest, s => by
      have step : SM.syncDeleteRow t (ne :: rest) s k r
          = SM.syncDeleteRow t rest
              ((removeOp s (indexEntryKey t ne.1 (evalExpr ne.2 r) (idBytesOf t k))).1) k r := by
        simp [SM.syncDeleteRow]
      rw [step]
      have ih := SM.syncDeleteRow_counters t k r rest
        ((removeOp s (indexEntryKey t ne.1 (evalExpr ne.2 r) (idBytesOf t k))).1)
      simpa [removeOp] using ih

theorem SM.syncDeleteRow_log (t : String) (k : Bytes) (r : Row) :
    ∀ (sync : List (String × Expr)) (s : Storage),
      ∃ l2, (SM.syncDeleteRow t sync s k r).accessLog = s.accessLog ++ l2 ∧
        ∀ x ∈ l2, keyHead x = 105
  | [], s => ⟨[], by simp [SM.syncDeleteRow]⟩
  | ne :: rest, s => by
      have step : SM.syncDeleteRow t (ne :: rest) s k r
          = SM.syncDeleteRow t rest
              ((removeOp s (indexEntryKey t ne.1 (evalExpr ne.2 r) (idBytesOf t k))).1) k r := by
        simp [SM.syncDeleteRow]
      rw [step]
      obtain ⟨l2, hl, hx⟩ := SM.syncDeleteRow_log t k r rest _
      refine ⟨[indexEntryKey t ne.1 (evalExpr ne.2 r) (idBytesOf t k)] ++ l2, ?_, ?_⟩
      · rw [hl]; simp [removeOp]
      · intro x hx2
        rcases List.mem_append.mp hx2 with h1 | h2
        · rcases List.mem_singleton.mp h1 with rfl
          exact keyHead_indexEntryKey t ne.1 _ _
        · exact hx x h2

theorem SM.syncDeleteRow_frame (t : String) (k : Bytes) (r : Row) :
    ∀ (sync : List (String × Expr)) (s : Storage) (K : Bytes), keyHead K ≠ 105 →
      lookupKV (SM.syncDeleteRow t sync s k r).kv K = lookupKV s.kv K
  | [], _, _, _ => rfl
  | ne :: rest, s, K, hK => by
      have step : SM.syncDeleteRow t (ne :: rest) s k r
          = SM.syncDeleteRow t rest
              ((removeOp s (indexEntryKey t ne.1 (evalExpr ne.2 r) (idBytesOf t k))).1) k r := by
        simp [SM.syncDeleteRow]
      rw [step, SM.syncDeleteRow_frame t k r rest _ K hK]
      simp only [removeOp]
      rw [lookupKV_removeKV, if_neg]
      intro he
      exact hK (he ▸ keyHead_indexEntryKey t ne.1 (evalExpr ne.2 r) (idBytesOf t k))

theorem SM.syncUpdateRow_self (t : String) (k : Bytes) (r : Row) :
    ∀ (sync : List (String × Expr)) (s : Storage),
      SM.syncUpdateRow t sync s k r r = s
  | [], _ => rfl
  | ne :: rest, s => by
      have step : SM.syncUpdateRow t (ne :: rest) s k r r
          = SM.syncUpdateRow t rest s k r r := by
        simp [SM.syncUpdateRow]
      rw [step]
      exact SM.syncUpdateRow_self t k r rest s

theorem SM.syncUpdateRow_counters (t : String) (k : Bytes) (oldR newR : Row) :
    ∀ (sync : List (String × Expr)) (s : Storage),
      (SM.syncUpdateRow t sync s k oldR newR).idCounter = s.idCounter ∧
      (SM.syncUpdateRow t sync s k oldR newR).lockCounter = s.lockCounter
  | [], _ => ⟨rfl, rfl⟩
  | ne :: rest, s => by
      by_cases he : evalExpr ne.2 oldR = evalExpr ne.2 newR
      · have step : SM.syncUpdateRow t (ne :: rest) s k oldR newR
            = SM.syncUpdateRow t rest s k oldR newR := by
          simp [SM.syncUpdateRow, he]
        rw [step]
        exact SM.syncUpdateRow_counters t k oldR newR rest s
      · have step : SM.syncUpdateRow t (ne :: rest) s k oldR newR
            = SM.syncUpdateRow t rest
                ((insertOp
                  ((removeOp s (indexEntryKey t ne.1 (evalExpr ne.2 oldR) (idBytesOf t k))).1)
                  (indexEntryKey t ne.1 (evalExpr ne.2 newR) (idBytesOf t k)) (.bytesV [])).1)
                k oldR newR := by
          simp [SM.syncUpdateRow, he]
        rw [step]
        have ih := SM.syncUpdateRow_counters t k oldR newR rest
          ((insertOp
            ((removeOp s (indexEntryKey t ne.1 (evalExpr ne.2 oldR) (idBytesOf t k))).1)
            (indexEntryKey t ne.1 (evalExpr ne.2 newR) (idBytesOf t k)) (.bytesV [])).1)
        simpa [insertOp, removeOp] using ih

theorem SM.syncUpdateRow_log (t : String) (k : Bytes) (oldR newR : Row) :
    ∀ (sync : List (String × Expr)) (s : Storage),
      ∃ l2, (SM.syncUpdateRow t sync s k oldR newR).accessLog = s.accessLog ++ l2 ∧
        ∀ x ∈ l2, keyHead x = 105
  | [], s => ⟨[], by simp [SM.syncUpdateRow]⟩
  | ne :: rest, s => by
      by_cases he : evalExpr ne.2 oldR = evalExpr ne.2 newR
      · have step : SM.syncUpdateRow t (ne :: rest) s k oldR newR
            = SM.syncUpdateRow t rest s k oldR newR := by
          simp [SM.syncUpdateRow, he]
        rw [step]
        exact SM.syncUpdateRow_log t k oldR newR rest s
      · have step : SM.syncUpdateRow t (ne :: rest) s k oldR newR
            = SM.syncUpdateRow t rest
                ((insertOp
                  ((removeOp s (indexEntryKey t ne.1 (evalExpr ne.2 oldR) (idBytesOf t k))).1)
                  (indexEntryKey t ne.1 (evalExpr ne.2 newR) (idBytesOf t k)) (.bytesV [])).1)
                k oldR newR := by
          simp [SM.syncUpdateRow, he]
        rw [step]
        obtain ⟨l2, hl, hx⟩ := SM.syncUpdateRow_log t k oldR newR rest _
        refine ⟨[indexEntryKey t ne.1 (evalExpr ne.2 oldR) (idBytesOf t k),
                 indexEntryKey t ne.1 (evalExpr ne.2 newR) (idBytesOf t k)] ++ l2, ?_, ?_⟩
        · rw [hl]; simp [insertOp, removeOp]
        · intro x hx2
          rcases List.mem_append.mp hx2 with h1 | h2
          · rcases List.mem_cons.mp h1 with rfl | h3
            · exact keyHead_indexEntryKey t ne.1 _ _
            · rcases List.mem_singleton.mp h3 with rfl
              exact keyHead_indexEntryKey t ne.1 _ _
          · exact hx x h2

theorem SM.syncUpdateRow_frame (t : String) (k : Bytes) (oldR newR : Row) :
    ∀ (sync : List (String × Expr)) (s : Storage) (K : Bytes), keyHead K ≠ 105 →
      lookupKV (SM.syncUpdateRow t sync s k oldR newR).kv K = lookupKV s.kv K
  | [], _, _, _ => rfl
  | ne :: rest, s, K, hK => by
      by_cases he : evalExpr ne.2 oldR = evalExpr ne.2 newR
      · have step : SM.syncUpdateRow t (ne :: rest) s k oldR newR
            = SM.syncUpdateRow t rest s k oldR newR := by
          simp [SM.syncUpdateRow, he]
        rw [step]
        exact SM.syncUpdateRow_frame t k oldR newR rest s K hK
      · have step : SM.syncUpdateRow t (ne :: rest) s k oldR newR
            = SM.syncUpdateRow t rest
                ((insertOp
                  ((removeOp s (indexEntryKey t ne.1 (evalExpr ne.2 oldR) (idBytesOf t k))).1)
                  (indexEntryKey t ne.1 (evalExpr ne.2 newR) (idBytesOf t k)) (.bytesV [])).1)
                k oldR newR := by
          simp [SM.syncUpdateRow, he]
        rw [step, SM.syncUpdateRow_frame t k oldR newR rest _ K hK]
        simp only [insertOp, removeOp]
        rw [lookupKV_setKV, if_neg, lookupKV_removeKV, if_neg]
        · intro h2
          exact hK (h2 ▸ keyHead_indexEntryKey t ne.1 (evalExpr ne.2 oldR) (idBytesOf t k))
        · intro h2
          exact hK (h2 ▸ keyHead_indexEntryKey t ne.1 (evalExpr ne.2 newR) (idBytesOf t k))

/-!
The `insert_data` transaction body.
-/

theorem SM.insGo_step (t : String) (sync : List (String × Expr)) (r : Row)
    (rest : List Row) (s : Storage) :
    SM.insGo t sync s (r :: rest)
      = SM.insGo t sync
          ((insertOp (SM.syncInsertRow t sync { s with idCounter := s.idCounter + 1 }
              (rowKeyBase t ++ beBytes s.idCounter) r)
            (rowKeyBase t ++ beBytes s.idCounter) (.rowV r)).1) rest := by
  simp [SM.insGo, genId]

theorem SM.insGo_ok (t : String) (sync : List (String × Expr)) :
    ∀ (rows : List Row) (s : Storage),
      ∃ s', SM.insGo t sync s rows = .ok s' () ∧
        s'.idCounter = s.idCounter + rows.length ∧
        s'.lockCounter = s.lockCounter
  | [], s => ⟨s, rfl, by simp [SM.insGo], by simp [SM.insGo]⟩
  | r :: rest, s => by
      obtain ⟨s', h1, h2, h3⟩ := SM.insGo_ok t sync rest
        ((insertOp (SM.syncInsertRow t sync { s with idCounter := s.idCounter + 1 }
            (rowKeyBase t ++ beBytes s.idCounter) r)
          (rowKeyBase t ++ beBytes s.idCounter) (.rowV r)).1)
      have hc := SM.syncInsertRow_counters t (rowKeyBase t ++ beBytes s.idCounter) r sync
        { s with idCounter := s.idCounter + 1 }
      refine ⟨s', ?_, ?_, ?_⟩
      · rw [SM.insGo_step]; exact h1
      · rw [h2]
        simp only [insertOp] at *
        rw [hc.1]
        simp only [List.length_cons]
        omega
      · rw [h3]
        simp only [insertOp] at *
        rw [hc.2]

theorem SM.insGo_frame0 (t : String) (sync : List (String × Expr)) :
    ∀ (rows : List Row) (s s' : Storage), SM.insGo t sync s rows = .ok s' () →
      ∀ K, keyHead K ≠ 100 → keyHead K ≠ 105 →
        lookupKV s'.kv K = lookupKV s.kv K
  | [], s, s', h, K, _, _ => by
      rw [SM.insGo] at h
      injection h with h1 _
      rw [← h1]
  | r :: rest, s, s', h, K, h100, h105 => by
      rw [SM.insGo_step] at h
      rw [SM.insGo_frame0 t sync rest _ s' h K h100 h105]
      simp only [insertOp]
      rw [lookupKV_setKV, if_neg]
      · exact SM.syncInsertRow_frame t _ r sync _ K h105
      · intro he
        exact h100 (he ▸ keyHead_rowKeyBase_append t (beBytes s.idCounter))

theorem SM.insGo_frame (t : String) (sync : List (String × Expr)) :
    ∀ (rows : List Row) (s s' : Storage), SM.insGo t sync s rows = .ok s' () →
      ∀ (K : Bytes) (v : StoredVal), lookupKV s.kv K = some v →
        (∀ j, j < rows.length → K ≠ rowKeyBase t ++ beBytes (s.idCounter + j)) →
        (keyHead K ≠ 105 ∨ v = .bytesV []) →
        lookupKV s'.kv K = some v
  | [], s, s', h, K, v, hv, _, _ => by
      rw [SM.insGo] at h
      injection h with h1 _
      rw [← h1]
      exact hv
  | r :: rest, s, s', h, K, v, hv, hKeys, hdisj => by
      rw [SM.insGo_step] at h
      have hsync : lookupKV (SM.syncInsertRow t sync { s with idCounter := s.idCounter + 1 }
          (rowKeyBase t ++ beBytes s.idCounter) r).kv K = some v := by
        rcases hdisj with h105 | hbv
        · rw [SM.syncInsertRow_frame t _ r sync _ K h105]
          exact hv
        · subst hbv
          exact SM.syncInsertRow_keeps t _ r sync _ K hv
      have hne : ¬ (rowKeyBase t ++ beBytes s.idCounter = K) := by
        intro he
        have h0 := hKeys 0 (by simp)
        rw [Nat.add_zero] at h0
        exact h0 he.symm
      have hins : lookupKV ((insertOp (SM.syncInsertRow t sync
          { s with idCounter := s.idCounter + 1 }
          (rowKeyBase t ++ beBytes s.idCounter) r)
          (rowKeyBase t ++ beBytes s.idCounter) (.rowV r)).1).kv K = some v := by
        simp only [insertOp]
        rw [lookupKV_setKV, if_neg hne]
        exact hsync
      apply SM.insGo_frame t sync rest _ s' h K v hins _ hdisj
      intro j hj
      have hc := SM.syncInsertRow_counters t (rowKeyBase t ++ beBytes s.idCounter) r sync
        { s with idCounter := s.idCounter + 1 }
      have hcnt : ((insertOp (SM.syncInsertRow t sync
          { s with idCounter := s.idCounter + 1 }
          (rowKeyBase t ++ beBytes s.idCounter) r)
          (rowKeyBase t ++ beBytes s.idCounter) (.rowV r)).1).idCounter
          = s.idCounter + 1 := by
        simp only [insertOp]
        rw [hc.1]
      rw [hcnt]
      have heq : s.idCounter + 1 + j = s.idCounter + (j + 1) := by omega
      rw [heq]
      exact hKeys (j + 1) (by simp only [List.length_cons]; omega)

theorem SM.insGo_log (t : String) (sync : List (String × Expr)) :
    ∀ (rows : List Row) (s s' : Storage), SM.insGo t sync s rows = .ok s' () →
      ∃ l2, s'.accessLog = s.accessLog ++ l2 ∧
        ∀ x ∈ l2, keyHead x = 100 ∨ keyHead x = 105
  | [], s, s', h => by
      rw [SM.insGo] at h
      injection h with h1 _
      rw [← h1]
      exact ⟨[], by simp, by simp⟩
  | r :: rest, s, s', h => by
      rw [SM.insGo_step] at h
      obtain ⟨l2, hl2, hx2⟩ := SM.insGo_log t sync rest _ s' h
      obtain ⟨l1, hl1, hx1⟩ := SM.syncInsertRow_log t
        (rowKeyBase t ++ beBytes s.idCounter) r sync { s with idCounter := s.idCounter + 1 }
      refine ⟨(l1 ++ [rowKeyBase t ++ beBytes s.idCounter]) ++ l2, ?_, ?_⟩
      · rw [hl2]
        simp only [insertOp, hl1]
        simp
      · intro x hx
        rcases List.mem_append.mp hx with h1 | h2
        · rcases List.mem_append.mp h1 with h3 | h4
          · exact .inr (hx1 x h3)
          · rcases List.mem_singleton.mp h4 with rfl
            exact .inl (keyHead_rowKeyBase_append t (beBytes s.idCounter))
        · exact hx2 x h2

/-- The main row/entry lookup description of a committed `insert_data`
transaction: row `i` sits at id `idCounter + i` and every index of the
sync view has its entry, provided the ids do not exhaust the u64 space. -/
theorem SM.insGo_mem (t : String) (sync : List (String × Expr)) :
    ∀ (rows : List Row) (s s' : Storage), SM.insGo t sync s rows = .ok s' () →
      s.idCounter + rows.length ≤ 2 ^ 64 →
      ∀ (i : Nat) (h : i < rows.length),
        lookupKV s'.kv (rowKeyBase t ++ beBytes (s.idCounter + i))
          = some (.rowV (rows.get ⟨i, h⟩)) ∧
        ∀ ne ∈ sync,
          lookupKV s'.kv (indexEntryKey t ne.1 (evalExpr ne.2 (rows.get ⟨i, h⟩))
            (beBytes (s.idCounter + i))) = some (.bytesV [])
  | [], _, _, _, _, i, h => absurd h (by simp)
  | r :: rest, s, s', h, hbound, i, hi => by
      rw [SM.insGo_step] at h
      have hc := SM.syncInsertRow_counters t (rowKeyBase t ++ beBytes s.idCounter) r sync
        { s with idCounter := s.idCounter + 1 }
      have hcnt : ((insertOp (SM.syncInsertRow t sync
          { s with idCounter := s.idCounter + 1 }
          (rowKeyBase t ++ beBytes s.idCounter) r)
          (rowKeyBase t ++ beBytes s.idCounter) (.rowV r)).1).idCounter
          = s.idCounter + 1 := by
        simp only [insertOp]
        rw [hc.1]
      cases i with
      | zero =>
          constructor
          · rw [Nat.add_zero]
            apply SM.insGo_frame t sync rest _ s' h _ _ ?_ ?_ (.inl ?_)
            · simp only [insertOp]
              rw [lookupKV_setKV, if_pos rfl]
              rfl
            · intro j hj
              rw [hcnt]
              intro he
              have := List.append_cancel_left he
              have hm := beBytes_inj (m := s.idCounter) (n := s.idCounter + 1 + j)
                (by simp only [List.length_cons] at hbound; omega)
                (by simp only [List.length_cons] at hbound hj; omega) this
              omega
            · rw [keyHead_rowKeyBase_append]; decide
          · intro ne hne
            apply SM.insGo_frame t sync rest _ s' h _ _ ?_ ?_ (.inr rfl)
            · simp only [insertOp]
              rw [lookupKV_setKV, if_neg]
              · have := SM.syncInsertRow_mem t (rowKeyBase t ++ beBytes s.idCounter) r sync
                  { s with idCounter := s.idCounter + 1 } ne hne
                rw [idBytesOf_dataKey] at this
                rw [Nat.add_zero]
                exact this
              · intro he
                exact entryKey_ne_dataKey t ne.1 _ _ t (beBytes s.idCounter) he.symm
            · intro j hj
              rw [hcnt]
              exact fun he => (entryKey_ne_dataKey t ne.1 _ _ t _) he
      | succ i' =>
          have hsucc := SM.insGo_mem t sync rest _ s' h
            (by rw [hcnt]; simp only [List.length_cons] at hbound; omega)
            i' (by simp only [List.length_cons] at hi; omega)
          rw [hcnt] at hsucc
          have heq : s.idCounter + 1 + i' = s.idCounter + (i' + 1) := by omega
          rw [heq] at hsucc
          exact hsucc

/-!
The `update_data` and `delete_data` transaction bodies.
-/

theorem SM.updGo_append (t : String) (sync : List (String × Expr)) :
    ∀ (xs ys : List (Bytes × Row)) (s : Storage),
      SM.updGo t sync s (xs ++ ys) =
        match SM.updGo t sync s xs with
        | .ok s1 _ => SM.updGo t sync s1 ys
        | .abort s1 e => .abort s1 e
  | [], ys, s => by simp only [List.nil_append, SM.updGo]
  | (k, nr) :: xs, ys, s => by
      simp only [List.cons_append, SM.updGo]
      cases hv : lookupKV s.kv k with
      | none => simp [insertOp, hv]
      | some v =>
          cases v with
          | rowV oldRow =>
              simp only [insertOp, hv]
              exact SM.updGo_append t sync xs ys _
          | schemaRaw a => simp [insertOp, hv]
          | snap a => simp [insertOp, hv]
          | bytesV a => simp [insertOp, hv]
          | lockV a => simp [insertOp, hv]

theorem SM.updGo_missing (t : String) (sync : List (String × Expr)) (s : Storage)
    (k : Bytes) (r : Row) (rest : List (Bytes × Row))
    (h : lookupKV s.kv k = none) :
    SM.updGo t sync s ((k, r) :: rest) =
      .abort { s with kv := setKV s.kv k (.rowV r), accessLog := s.accessLog ++ [k] }
        .ConflictOnEmptyIndexValueUpdate := by
  simp only [SM.updGo, insertOp, h]

theorem SM.updGo_frame0 (t : String) (sync : List (String × Expr)) :
    ∀ (rows : List (Bytes × Row)) (s s' : Storage), SM.updGo t sync s rows = .ok s' () →
      ∀ K : Bytes, (∀ kr ∈ rows, K ≠ kr.1) → keyHead K ≠ 105 →
        lookupKV s'.kv K = lookupKV s.kv K
  | [], s, s', h, K, _, _ => by
      rw [SM.updGo] at h
      injection h with h1 _
      rw [← h1]
  | (k, nr) :: rest, s, s', h, K, hKeys, h105 => by
      rw [SM.updGo] at h
      cases hv : lookupKV s.kv k with
      | none => simp [insertOp, hv] at h
      | some v =>
          cases v with
          | rowV oldRow =>
              simp only [insertOp, hv] at h
              rw [SM.updGo_frame0 t sync rest _ s' h K
                (fun kr hkr => hKeys kr (List.mem_cons_of_mem _ hkr)) h105]
              rw [SM.syncUpdateRow_frame t k oldRow nr sync _ K h105]
              simp only
              rw [lookupKV_setKV, if_neg]
              intro he
              exact hKeys (k, nr) (List.mem_cons_self _ _) he.symm
          | schemaRaw a => simp [insertOp, hv] at h
          | snap a => simp [insertOp, hv] at h
          | bytesV a => simp [insertOp, hv] at h
          | lockV a => simp [insertOp, hv] at h

theorem SM.updGo_log (t : String) (sync : List (String × Expr)) :
    ∀ (rows : List (Bytes × Row)) (s : Storage),
      ∃ l2, (SM.updGo t sync s rows).st.accessLog = s.accessLog ++ l2 ∧
        ∀ x ∈ l2, keyHead x = 105 ∨ x ∈ rows.map Prod.fst
  | [], s => ⟨[], by simp [SM.updGo, TxResult.st], by simp⟩
  | (k, nr) :: rest, s => by
      rw [SM.updGo]
      cases hv : lookupKV s.kv k with
      | none =>
          refine ⟨[k], by simp [insertOp, TxResult.st, hv], ?_⟩
          intro x hx
          rcases List.mem_singleton.mp hx with rfl
          exact .inr (by simp)
      | some v =>
          cases v with
          | rowV oldRow =>
              simp only [insertOp, hv]
              obtain ⟨l1, hl1, hx1⟩ := SM.syncUpdateRow_log t k oldRow nr sync
                { s with kv := setKV s.kv k (.rowV nr), accessLog := s.accessLog ++ [k] }
              obtain ⟨l2, hl2, hx2⟩ := SM.updGo_log t sync rest
                (SM.syncUpdateRow t sync
                  { s with kv := setKV s.kv k (.rowV nr), accessLog := s.accessLog ++ [k] }
                  k oldRow nr)
              refine ⟨([k] ++ l1) ++ l2, ?_, ?_⟩
              · rw [hl2, hl1]
                simp
              · intro x hx
                rcases List.mem_append.mp hx with h1 | h2
                · rcases List.mem_append.mp h1 with h3 | h4
                  · rcases List.mem_singleton.mp h3 with rfl
                    exact .inr (by simp)
                  · exact .inl (hx1 x h4)
                · rcases hx2 x h2 with h5 | h6
                  · exact .inl h5
                  · exact .inr (by simp only [List.map_cons]; exact List.mem_cons_of_mem _ h6)
          | schemaRaw a =>
              refine ⟨[k], by simp [insertOp, hv, TxResult.st], ?_⟩
              intro x hx
              rcases List.mem_singleton.mp hx with rfl
              exact .inr (by simp)
          | snap a =>
              refine ⟨[k], by simp [insertOp, hv, TxResult.st], ?_⟩
              intro x hx
              rcases List.mem_singleton.mp hx with rfl
              exact .inr (by simp)
          | bytesV a =>
              refine ⟨[k], by simp [insertOp, hv, TxResult.st], ?_⟩
              intro x hx
              rcases List.mem_singleton.mp hx with rfl
              exact .inr (by simp)
          | lockV a =>
              refine ⟨[k], by simp [insertOp, hv, TxResult.st], ?_⟩
              intro x hx
              rcases List.mem_singleton.mp hx with rfl
              exact .inr (by simp)

theorem SM.delGo_append (t : String) (sync : List (String × Expr)) :
    ∀ (xs ys : List Bytes) (s : Storage),
      SM.delGo t sync s (xs ++ ys) =
        match SM.delGo t sync s xs with
        | .ok s1 _ => SM.delGo t sync s1 ys
        | .abort s1 e => .abort s1 e
  | [], ys, s => by simp only [List.nil_append, SM.delGo]
  | k :: xs, ys, s => by
      simp only [List.cons_append, SM.delGo]
      cases hv : lookupKV s.kv k with
      | none => simp [removeOp, hv]
      | some v =>
          cases v with
          | rowV r =>
              simp only [removeOp, hv]
              exact SM.delGo_append t sync xs ys _
          | schemaRaw a => simp [removeOp, hv]
          | snap a => simp [removeOp, hv]
          | bytesV a => simp [removeOp, hv]
          | lockV a => simp [removeOp, hv]

theorem SM.delGo_missing (t : String) (sync : List (String × Expr)) (s : Storage)
    (k : Bytes) (rest : List Bytes)
    (h : lookupKV s.kv k = none) :
    SM.delGo t sync s (k :: rest) =
      .abort { s with kv := removeKV s.kv k, accessLog := s.accessLog ++ [k] }
        .ConflictOnEmptyIndexValueDelete := by
  simp only [SM.delGo, removeOp, h]

theorem SM.delGo_log (t : String) (sync : List (String × Expr)) :
    ∀ (keys : List Bytes) (s : Storage),
      ∃ l2, (SM.delGo t sync s keys).st.accessLog = s.accessLog ++ l2 ∧
        ∀ x ∈ l2, keyHead x = 105 ∨ x ∈ keys
  | [], s => ⟨[], by simp [SM.delGo, TxResult.st], by simp⟩
  | k :: rest, s => by
      rw [SM.delGo]
      cases hv : lookupKV s.kv k with
      | none =>
          refine ⟨[k], by simp [removeOp, TxResult.st, hv], ?_⟩
          intro x hx
          rcases List.mem_singleton.mp hx with rfl
          exact .inr (by simp)
      | some v =>
          cases v with
          | rowV r =>
              simp only [removeOp, hv]
              obtain ⟨l1, hl1, hx1⟩ := SM.syncDeleteRow_log t k r sync
                { s with kv := removeKV s.kv k, accessLog := s.accessLog ++ [k] }
              obtain ⟨l2, hl2, hx2⟩ := SM.delGo_log t sync rest
                (SM.syncDeleteRow t sync
                  { s with kv := removeKV s.kv k, accessLog := s.accessLog ++ [k] } k r)
              refine ⟨([k] ++ l1) ++ l2, ?_, ?_⟩
              · rw [hl2, hl1]
                simp
              · intro x hx
                rcases List.mem_append.mp hx with h1 | h2
                · rcases List.mem_append.mp h1 with h3 | h4
                  · rcases List.mem_singleton.mp h3 with rfl
                    exact .inr (by simp)
                  · exact .inl (hx1 x h4)
                · rcases hx2 x h2 with h5 | h6
                  · exact .inl h5
                  · exact .inr (List.mem_cons_of_mem _ h6)
          | schemaRaw a =>
              refine ⟨[k], by simp [removeOp, hv, TxResult.st], ?_⟩
              intro x hx
              rcases List.mem_singleton.mp hx with rfl
              exact .inr (by simp)
          | snap a =>
              refine ⟨[k], by simp [removeOp, hv, TxResult.st], ?_⟩
              intro x hx
              rcases List.mem_singleton.mp hx with rfl
              exact .inr (by simp)
          | bytesV a =>
              refine ⟨[k], by simp [removeOp, hv, TxResult.st], ?_⟩
              intro x hx
              rcases List.mem_singleton.mp hx with rfl
              exact .inr (by simp)
          | lockV a =>
              refine ⟨[k], by simp [removeOp, hv, TxResult.st], ?_⟩
              intro x hx
              rcases List.mem_singleton.mp hx with rfl
              exact .inr (by simp)

/-!
Lookups in the committed `create_index` / `drop_index` states.
-/

theorem runTx_fst_log (s : Storage) (r : TxResult Unit) :
    (runTx s r).1.accessLog = r.st.accessLog := by
  cases r <;> rfl

theorem IM.createIndexOk_schema (s : Storage) (t n : String) (column : OrderByExpr)
    (rows : List (Bytes × Row)) (sch : Schema) :
    lookupKV (IM.createIndexOk s t n column rows sch).kv (schemaKey t)
      = some (.snap ⟨s.lockCounter,
          some ⟨t, sch.column_defs, sch.indexes ++ [⟨n, column.expr, .Both⟩]⟩⟩) := by
  rw [IM.createIndexOk]
  simp only [insertOp]
  rw [lookupKV_setKV, if_neg (tempKey_ne_schemaKey s.lockCounter t t)]
  rw [lookupKV_setKV, if_pos rfl]

theorem IM.createIndexOk_temp (s : Storage) (t n : String) (column : OrderByExpr)
    (rows : List (Bytes × Row)) (sch : Schema) :
    lookupKV (IM.createIndexOk s t n column rows sch).kv (tempSchemaKey s.lockCounter t)
      = some (.bytesV (schemaKey t)) := by
  rw [IM.createIndexOk]
  simp only [insertOp]
  rw [lookupKV_setKV, if_pos rfl]

theorem IM.createIndexOk_lock (s : Storage) (t n : String) (column : OrderByExpr)
    (rows : List (Bytes × Row)) (sch : Schema) :
    lookupKV (IM.createIndexOk s t n column rows sch).kv lockKey
      = some (.lockV s.lockCounter) := by
  rw [IM.createIndexOk]
  simp only [insertOp]
  rw [lookupKV_setKV, if_neg (tempKey_ne_lockKey s.lockCounter t)]
  rw [lookupKV_setKV, if_neg (schemaKey_ne_lockKey t)]
  rw [IM.insertEntries_frame t _ rows _ lockKey (by rw [keyHead_lockKey]; decide)]
  rw [lookupKV_setKV, if_pos rfl]

theorem IM.createIndexOk_entry (s : Storage) (t n : String) (column : OrderByExpr)
    (rows : List (Bytes × Row)) (sch : Schema) (k : Bytes) (r : Row)
    (hkr : (k, r) ∈ rows) :
    lookupKV (IM.createIndexOk s t n column rows sch).kv
      (indexEntryKey t n (evalExpr column.expr r) (idBytesOf t k)) = some (.bytesV []) := by
  rw [IM.createIndexOk]
  simp only [insertOp]
  rw [lookupKV_setKV, if_neg ((entryKey_ne_tempKey t n _ _ s.lockCounter t).symm)]
  rw [lookupKV_setKV, if_neg ((entryKey_ne_schemaKey t n _ _ t).symm)]
  exact IM.insertEntries_mem t ⟨n, column.expr, .Both⟩ rows _ k r hkr

theorem IM.dropIndexOk_schema (s : Storage) (t n : String)
    (rows : List (Bytes × Row)) (sch : Schema) (idx : SchemaIndex) :
    lookupKV (IM.dropIndexOk s t n rows sch idx).kv (schemaKey t)
      = some (.snap ⟨s.lockCounter,
          some ⟨t, sch.column_defs, (sch.indexes.partition (fun i => i.name == n)).2⟩⟩) := by
  rw [IM.dropIndexOk]
  simp only [insertOp]
  rw [lookupKV_setKV, if_neg (tempKey_ne_schemaKey s.lockCounter t t)]
  rw [lookupKV_setKV, if_pos rfl]

theorem IM.dropIndexOk_temp (s : Storage) (t n : String)
    (rows : List (Bytes × Row)) (sch : Schema) (idx : SchemaIndex) :
    lookupKV (IM.dropIndexOk s t n rows sch idx).kv (tempSchemaKey s.lockCounter t)
      = some (.bytesV (schemaKey t)) := by
  rw [IM.dropIndexOk]
  simp only [insertOp]
  rw [lookupKV_setKV, if_pos rfl]

theorem IM.dropIndexOk_entry (s : Storage) (t n : String)
    (rows : List (Bytes × Row)) (sch : Schema) (idx : SchemaIndex) (k : Bytes) (r : Row)
    (hkr : (k, r) ∈ rows) :
    lookupKV (IM.dropIndexOk s t n rows sch idx).kv
      (indexEntryKey t idx.name (evalExpr idx.expr r) (idBytesOf t k)) = none := by
  rw [IM.dropIndexOk]
  simp only [insertOp]
  rw [lookupKV_setKV, if_neg ((entryKey_ne_tempKey t idx.name _ _ s.lockCounter t).symm)]
  rw [lookupKV_setKV, if_neg ((entryKey_ne_schemaKey t idx.name _ _ t).symm)]
  exact IM.deleteEntries_mem t idx rows _ k r hkr

/-!
Which operations touch the reserved lock key.
-/

theorem IM.create_index_locks (s : Storage) (t n : String) (column : OrderByExpr)
    (rows : List (Bytes × Row)) (hscan : scanData s t = .ok rows) :
    lockKey ∈ (IM.create_index s t n column).1.accessLog := by
  by_cases hl : lockLive s = true
  · rw [IM.create_index, hscan, lockAcquire_abort s hl]
    simp [runTx]
  · have hlock : lockLive s = false := by
      cases hb : lockLive s
      · rfl
      · exact absurd hb hl
    have hlook1 : lookupKV (setKV s.kv lockKey (.lockV s.lockCounter)) (schemaKey t)
        = lookupKV s.kv (schemaKey t) := by
      rw [lookupKV_setKV, if_neg (lockKey_ne_schemaKey t)]
    cases hsch : lookupKV s.kv (schemaKey t) with
    | none =>
        rw [IM.create_index, hscan, lockAcquire_ok s hlock]
        simp only [IM.fetchSchema, getOp, hlook1, hsch, runTx]
        simp
    | some v =>
        cases v with
        | snap snap0 =>
            cases hval : snap0.value with
            | none =>
                rw [IM.create_index, hscan, lockAcquire_ok s hlock]
                simp only [IM.fetchSchema, getOp, hlook1, hsch, Snapshot.delete, hval, runTx]
                simp
            | some sch =>
                cases hdup : sch.indexes.any (fun i => i.name == n) with
                | true =>
                    rw [IM.create_index, hscan, lockAcquire_ok s hlock]
                    simp only [IM.fetchSchema, getOp, hlook1, hsch, Snapshot.delete, hval,
                      hdup, if_true, runTx]
                    simp
                | false =>
                    rw [IM.create_index_run s t n column rows snap0 sch hscan hlock
                      hsch hval hdup]
                    rw [IM.createIndexOk]
                    simp only [insertOp]
                    obtain ⟨l2, hl2, _⟩ := IM.insertEntries_log t ⟨n, column.expr, .Both⟩ rows
                      { s with kv := setKV s.kv lockKey (.lockV s.lockCounter),
                               lockCounter := s.lockCounter + 1,
                               accessLog := ((s.accessLog ++ [lockKey]) ++ [lockKey])
                                 ++ [schemaKey t] }
                    rw [hl2]
                    simp
        | schemaRaw a =>
            rw [IM.create_index, hscan, lockAcquire_ok s hlock]
            simp only [IM.fetchSchema, getOp, hlook1, hsch, runTx]
            simp
        | rowV a =>
            rw [IM.create_index, hscan, lockAcquire_ok s hlock]
            simp only [IM.fetchSchema, getOp, hlook1, hsch, runTx]
            simp
        | bytesV a =>
            rw [IM.create_index, hscan, lockAcquire_ok s hlock]
            simp only [IM.fetchSchema, getOp, hlook1, hsch, runTx]
            simp
        | lockV a =>
            rw [IM.create_index, hscan, lockAcquire_ok s hlock]
            simp only [IM.fetchSchema, getOp, hlook1, hsch, runTx]
            simp

theorem IM.drop_index_locks (s : Storage) (t n : String)
    (rows : List (Bytes × Row)) (hscan : scanData s t = .ok rows) :
    lockKey ∈ (IM.drop_index s t n).1.accessLog := by
  by_cases hl : lockLive s = true
  · rw [IM.drop_index, hscan, lockAcquire_abort s hl]
    simp [runTx]
  · have hlock : lockLive s = false := by
      cases hb : lockLive s
      · rfl
      · exact absurd hb hl
    have hlook1 : lookupKV (setKV s.kv lockKey (.lockV s.lockCounter)) (schemaKey t)
        = lookupKV s.kv (schemaKey t) := by
      rw [lookupKV_setKV, if_neg (lockKey_ne_schemaKey t)]
    cases hsch : lookupKV s.kv (schemaKey t) with
    | none =>
        rw [IM.drop_index, hscan, lockAcquire_ok s hlock]
        simp only [IM.fetchSchema, getOp, hlook1, hsch, runTx]
        simp
    | some v =>
        cases v with
        | snap snap0 =>
            cases hval : snap0.value with
            | none =>
                rw [IM.drop_index, hscan, lockAcquire_ok s hlock]
                simp only [IM.fetchSchema, getOp, hlook1, hsch, Snapshot.delete, hval, runTx]
                simp
            | some sch =>
                cases hpart : (sch.indexes.partition (fun i => i.name == n)).1 with
                | nil =>
                    rw [IM.drop_index, hscan, lockAcquire_ok s hlock]
                    simp only [IM.fetchSchema, getOp, hlook1, hsch, Snapshot.delete, hval,
                      hpart, runTx]
                    simp
                | cons idx restIdx =>
                    rw [IM.drop_index_run s t n rows snap0 sch idx restIdx hscan hlock
                      hsch hval hpart]
                    rw [IM.dropIndexOk]
                    simp only [insertOp]
                    obtain ⟨l2, hl2, _⟩ := IM.deleteEntries_log t idx rows
                      { s with kv := setKV s.kv lockKey (.lockV s.lockCounter),
                               lockCounter := s.lockCounter + 1,
                               accessLog := ((s.accessLog ++ [lockKey]) ++ [lockKey])
                                 ++ [schemaKey t] }
                    rw [hl2]
                    simp
        | schemaRaw a =>
            rw [IM.drop_index, hscan, lockAcquire_ok s hlock]
            simp only [IM.fetchSchema, getOp, hlook1, hsch, runTx]
            simp
        | rowV a =>
            rw [IM.drop_index, hscan, lockAcquire_ok s hlock]
            simp only [IM.fetchSchema, getOp, hlook1, hsch, runTx]
            simp
        | bytesV a =>
            rw [IM.drop_index, hscan, lockAcquire_ok s hlock]
            simp only [IM.fetchSchema, getOp, hlook1, hsch, runTx]
            simp
        | lockV a =>
            rw [IM.drop_index, hscan, lockAcquire_ok s hlock]
            simp only [IM.fetchSchema, getOp, hlook1, hsch, runTx]
            simp

theorem SM.fetchSchemaRaw_fst (s : Storage) (t : String) :
    (SM.fetchSchemaRaw s t).1 = { s with accessLog := s.accessLog ++ [schemaKey t] } := by
  rw [SM.fetchSchemaRaw]
  cases hv : lookupKV s.kv (schemaKey t) with
  | none => simp [getOp, hv]
  | some v => cases v <;> simp [getOp, hv]

theorem SM.syncFoldIns_log (t : String) (sync : List (String × Expr)) :
    ∀ (rows : List (Bytes × Row)) (s : Storage),
      ∃ l2, (rows.foldl (fun s kr => SM.syncInsertRow t sync s kr.1 kr.2) s).accessLog
          = s.accessLog ++ l2 ∧ ∀ x ∈ l2, keyHead x = 105
  | [], s => ⟨[], by simp, by simp⟩
  | kr :: rest, s => by
      simp only [List.foldl_cons]
      obtain ⟨l1, hl1, hx1⟩ := SM.syncInsertRow_log t kr.1 kr.2 sync s
      obtain ⟨l2, hl2, hx2⟩ :=
        SM.syncFoldIns_log t sync rest (SM.syncInsertRow t sync s kr.1 kr.2)
      refine ⟨l1 ++ l2, ?_, ?_⟩
      · rw [hl2, hl1, List.append_assoc]
      · intro x hx
        rcases List.mem_append.mp hx with h1 | h2
        exacts [hx1 x h1, hx2 x h2]

theorem SM.syncFoldDel_log (t : String) (sync : List (String × Expr)) :
    ∀ (rows : List (Bytes × Row)) (s : Storage),
      ∃ l2, (rows.foldl (fun s kr => SM.syncDeleteRow t sync s kr.1 kr.2) s).accessLog
          = s.accessLog ++ l2 ∧ ∀ x ∈ l2, keyHead x = 105
  | [], s => ⟨[], by simp, by simp⟩
  | kr :: rest, s => by
      simp only [List.foldl_cons]
      obtain ⟨l1, hl1, hx1⟩ := SM.syncDeleteRow_log t kr.1 kr.2 sync s
      obtain ⟨l2, hl2, hx2⟩ :=
        SM.syncFoldDel_log t sync rest (SM.syncDeleteRow t sync s kr.1 kr.2)
      refine ⟨l1 ++ l2, ?_, ?_⟩
      · rw [hl2, hl1, List.append_assoc]
      · intro x hx
        rcases List.mem_append.mp hx with h1 | h2
        exacts [hx1 x h1, hx2 x h2]

theorem SM.insert_data_no_lock (s : Storage) (t : String) (rows : List Row)
    (h : lockKey ∉ s.accessLog) :
    lockKey ∉ (SM.insert_data s t rows).1.accessLog ∧
    lookupKV (SM.insert_data s t rows).1.kv lockKey = lookupKV s.kv lockKey := by
  rcases hh : SM.newIndexSync s t with ⟨s1, es⟩
  have hs1 : s1 = { s with accessLog := s.accessLog ++ [schemaKey t] } := by
    have h2 := congrArg Prod.fst hh
    rw [SM.newIndexSync_fst] at h2
    exact h2.symm
  have hs1log : lockKey ∉ s1.accessLog := by
    subst hs1
    intro hm
    rcases List.mem_append.mp hm with h1 | h2
    · exact h h1
    · exact lockKey_ne_schemaKey t (List.mem_singleton.mp h2)
  cases es with
  | error e =>
      simp only [SM.insert_data, hh]
      exact ⟨hs1log, by subst hs1; rfl⟩
  | ok sync =>
      simp only [SM.insert_data, hh]
      obtain ⟨s', hgo, _, _⟩ := SM.insGo_ok t sync rows s1
      rw [hgo]
      obtain ⟨l2, hl2, hx2⟩ := SM.insGo_log t sync rows s1 s' hgo
      constructor
      · simp only [runTx, hl2]
        intro hm
        rcases List.mem_append.mp hm with h1 | h2
        · exact hs1log h1
        · rcases hx2 lockKey h2 with h3 | h3 <;>
            rw [keyHead_lockKey] at h3 <;> exact absurd h3 (by decide)
      · simp only [runTx]
        rw [SM.insGo_frame0 t sync rows s1 s' hgo lockKey
          (by rw [keyHead_lockKey]; decide) (by rw [keyHead_lockKey]; decide)]
        subst hs1
        rfl

theorem SM.update_data_no_lock (s : Storage) (t : String) (rows : List (Bytes × Row))
    (h : lockKey ∉ s.accessLog) (hkeys : ∀ kr ∈ rows, kr.1 ≠ lockKey) :
    lockKey ∉ (SM.update_data s t rows).1.accessLog ∧
    lookupKV (SM.update_data s t rows).1.kv lockKey = lookupKV s.kv lockKey := by
  rcases hh : SM.newIndexSync s t with ⟨s1, es⟩
  have hs1 : s1 = { s with accessLog := s.accessLog ++ [schemaKey t] } := by
    have h2 := congrArg Prod.fst hh
    rw [SM.newIndexSync_fst] at h2
    exact h2.symm
  have hs1log : lockKey ∉ s1.accessLog := by
    subst hs1
    intro hm
    rcases List.mem_append.mp hm with h1 | h2
    · exact h h1
    · exact lockKey_ne_schemaKey t (List.mem_singleton.mp h2)
  cases es with
  | error e =>
      simp only [SM.update_data, hh]
      exact ⟨hs1log, by subst hs1; rfl⟩
  | ok sync =>
      simp only [SM.update_data, hh]
      constructor
      · rw [runTx_fst_log]
        obtain ⟨l2, hl2, hx2⟩ := SM.updGo_log t sync rows s1
        rw [hl2]
        intro hm
        rcases List.mem_append.mp hm with h1 | h2
        · exact hs1log h1
        · rcases hx2 lockKey h2 with h3 | h3
          · rw [keyHead_lockKey] at h3; exact absurd h3 (by decide)
          · obtain ⟨kr, hkr, hkeq⟩ := List.mem_map.mp h3
            exact hkeys kr hkr hkeq
      · cases hr : SM.updGo t sync s1 rows with
        | ok tr a =>
            cases a
            simp only [runTx]
            rw [SM.updGo_frame0 t sync rows s1 tr hr lockKey
              (fun kr hkr => fun he => hkeys kr hkr he.symm)
              (by rw [keyHead_lockKey]; decide)]
            subst hs1
            rfl
        | abort tr e =>
            simp only [runTx]
            subst hs1
            rfl

theorem SM.delete_data_no_lock (s : Storage) (t : String) (keys : List Bytes)
    (h : lockKey ∉ s.accessLog) (hkeys : ∀ k ∈ keys, k ≠ lockKey) :
    lockKey ∉ (SM.delete_data s t keys).1.accessLog := by
  rcases hh : SM.newIndexSync s t with ⟨s1, es⟩
  have hs1 : s1 = { s with accessLog := s.accessLog ++ [schemaKey t] } := by
    have h2 := congrArg Prod.fst hh
    rw [SM.newIndexSync_fst] at h2
    exact h2.symm
  have hs1log : lockKey ∉ s1.accessLog := by
    subst hs1
    intro hm
    rcases List.mem_append.mp hm with h1 | h2
    · exact h h1
    · exact lockKey_ne_schemaKey t (List.mem_singleton.mp h2)
  cases es with
  | error e =>
      simp only [SM.delete_data, hh]
      exact hs1log
  | ok sync =>
      simp only [SM.delete_data, hh]
      rw [runTx_fst_log]
      obtain ⟨l2, hl2, hx2⟩ := SM.delGo_log t sync keys s1
      rw [hl2]
      intro hm
      rcases List.mem_append.mp hm with h1 | h2
      · exact hs1log h1
      · rcases hx2 lockKey h2 with h3 | h3
        · rw [keyHead_lockKey] at h3; exact absurd h3 (by decide)
        · exact hkeys lockKey h3 rfl

theorem SM.create_index_no_lock (s : Storage) (t n : String) (ex : Expr)
    (h : lockKey ∉ s.accessLog) :
    lockKey ∉ (SM.create_index s t n ex).1.accessLog := by
  rcases hh : SM.fetchSchemaRaw s t with ⟨s1, es⟩
  have hs1 : s1 = { s with accessLog := s.accessLog ++ [schemaKey t] } := by
    have h2 := congrArg Prod.fst hh
    rw [SM.fetchSchemaRaw_fst] at h2
    exact h2.symm
  have hs1log : lockKey ∉ s1.accessLog := by
    subst hs1
    intro hm
    rcases List.mem_append.mp hm with h1 | h2
    · exact h h1
    · exact lockKey_ne_schemaKey t (List.mem_singleton.mp h2)
  cases es with
  | error e =>
      simp only [SM.create_index, hh]
      exact hs1log
  | ok osch =>
      cases osch with
      | none =>
          simp only [SM.create_index, hh]
          exact hs1log
      | some sch =>
          simp only [SM.create_index, hh]
          cases hdup : sch.indexes.any (fun ne => ne.1 == n) with
          | true =>
              simp only [hdup, if_true]
              exact hs1log
          | false =>
              simp only [hdup, Bool.false_eq_true, if_false]
              cases hscan : scanData s1 t with
              | error e =>
                  simp only [hscan]
                  exact hs1log
              | ok rows =>
                  simp only [hscan, runTx]
                  obtain ⟨l2, hl2, hx2⟩ := SM.syncFoldIns_log t
                    (sch.indexes ++ [(n, ex)])
                    rows
                    ((insertOp s1 (schemaKey t)
                      (.schemaRaw ⟨t, sch.column_defs, sch.indexes ++ [(n, ex)]⟩)).1)
                  rw [hl2]
                  intro hm
                  rcases List.mem_append.mp hm with h1 | h2
                  · simp only [insertOp] at h1
                    rcases List.mem_append.mp h1 with h3 | h4
                    · exact hs1log h3
                    · exact lockKey_ne_schemaKey t (List.mem_singleton.mp h4)
                  · have h3 := hx2 lockKey h2
                    rw [keyHead_lockKey] at h3
                    exact absurd h3 (by decide)

theorem SM.drop_index_no_lock (s : Storage) (t n : String)
    (h : lockKey ∉ s.accessLog) :
    lockKey ∉ (SM.drop_index s t n).1.accessLog := by
  rcases hh : SM.fetchSchemaRaw s t with ⟨s1, es⟩
  have hs1 : s1 = { s with accessLog := s.accessLog ++ [schemaKey t] } := by
    have h2 := congrArg Prod.fst hh
    rw [SM.fetchSchemaRaw_fst] at h2
    exact h2.symm
  have hs1log : lockKey ∉ s1.accessLog := by
    subst hs1
    intro hm
    rcases List.mem_append.mp hm with h1 | h2
    · exact h h1
    · exact lockKey_ne_schemaKey t (List.mem_singleton.mp h2)
  cases es with
  | error e2 =>
      simp only [SM.drop_index, hh]
      exact hs1log
  | ok osch =>
      cases osch with
      | none =>
          simp only [SM.drop_index, hh]
          exact hs1log
      | some sch =>
          simp only [SM.drop_index, hh]
          cases hall : sch.indexes.all (fun ne => ne.1 != n) with
          | true =>
              simp only [hall, if_true]
              exact hs1log
          | false =>
              simp only [hall, Bool.false_eq_true, if_false]
              cases hscan : scanData s1 t with
              | error e =>
                  simp only [hscan]
                  exact hs1log
              | ok rows =>
                  simp only [hscan, runTx]
                  obtain ⟨l2, hl2, hx2⟩ := SM.syncFoldDel_log t
                    ((sch.indexes.filter (fun ne => ne.1 != n)))
                    rows
                    ((insertOp s1 (schemaKey t)
                      (.schemaRaw ⟨t, sch.column_defs,
                        sch.indexes.filter (fun ne => ne.1 != n)⟩)).1)
                  rw [hl2]
                  intro hm
                  rcases List.mem_append.mp hm with h1 | h2
                  · simp only [insertOp] at h1
                    rcases List.mem_append.mp h1 with h3 | h4
                    · exact hs1log h3
                    · exact lockKey_ne_schemaKey t (List.mem_singleton.mp h4)
                  · have h3 := hx2 lockKey h2
                    rw [keyHead_lockKey] at h3
                    exact absurd h3 (by decide)

/-!
Claim theorems.
-/

/-- Claim C1 (code bug): the spec says `insert_schema` writes the schema
wrapped in an initial Snapshot Record, so that the durable value at a
schema key is always a serialized Snapshot Record.  The source
(store_mut.rs:57-65) serializes and writes the raw schema instead: on the
empty store the durable value at `schema/t` is a raw schema, and the
snapshot-expecting reader of the same repository (`fetch_schema`,
index_mut.rs:48-61, exercised through `IndexMut::create_index`) fails to
deserialize it and aborts with a serialization error. -/
theorem c1_insert_schema_raw_not_snapshot :
    (SM.insert_schema Fx.emptyStore Fx.schP0).2 = none ∧
    lookupKV Fx.smSchemaOut.kv (schemaKey "t") = some (.schemaRaw Fx.schP0) ∧
    (IM.create_index Fx.smSchemaOut "t" "ix" Fx.col0).2 = some .SerializationError := by
  decide

/-- Claim C2: every successful `create_index(table, index_name, expr)` call
runs with the structural lock acquirable (and leaves this transaction's
lock token installed), reads the schema Snapshot Record, tombstones it
with `delete(txid)` obtaining the current schema, appends the new index to
the schema's index list, inserts the new index's entry for every scanned
row, writes the updated Snapshot Record (the tombstoned record updated at
the same txid) back to `schema/<table>`, and writes a temp marker at
`temp_schema/<txid>/<table>` whose value is the bytes of the schema key. -/
theorem c2_create_index_success (s : Storage) (t n : String) (column : OrderByExpr)
    (s' : Storage) (h : IM.create_index s t n column = (s', none)) :
    ∃ rows snap0 sch,
      scanData s t = .ok rows ∧
      lockLive s = false ∧
      lookupKV s.kv (schemaKey t) = some (.snap snap0) ∧
      (snap0.delete s.lockCounter).2 = some sch ∧
      lookupKV s'.kv lockKey = some (.lockV s.lockCounter) ∧
      lookupKV s'.kv (schemaKey t)
        = some (.snap (((snap0.delete s.lockCounter).1).update s.lockCounter
            ⟨t, sch.column_defs, sch.indexes ++ [⟨n, column.expr, .Both⟩]⟩)) ∧
      lookupKV s'.kv (tempSchemaKey s.lockCounter t) = some (.bytesV (schemaKey t)) ∧
      ∀ kr ∈ rows, lookupKV s'.kv
        (indexEntryKey t n (evalExpr column.expr kr.2) (idBytesOf t kr.1))
          = some (.bytesV []) := by
  obtain ⟨rows, snap0, sch, hscan, hlock, hsch, hval, hdup, hs'⟩ :=
    IM.create_index_ok_inv s t n column s' h
  subst hs'
  refine ⟨rows, snap0, sch, hscan, hlock, hsch, ?_, ?_, ?_, ?_, ?_⟩
  · simpa [Snapshot.delete] using hval
  · exact IM.createIndexOk_lock s t n column rows sch
  · have h2 := IM.createIndexOk_schema s t n column rows sch
    simpa [Snapshot.delete, Snapshot.update] using h2
  · exact IM.createIndexOk_temp s t n column rows sch
  · intro kr hkr
    obtain ⟨k, r⟩ := kr
    exact IM.createIndexOk_entry s t n column rows sch k r hkr

/-- Witness for C2 on a concrete store with one table, one row and an
empty index list. -/
theorem c2_create_index_success_witness :
    IM.create_index Fx.imStore "t" "ix" Fx.col0 = (Fx.imCreateOut, none) ∧
    (∃ rows snap0 sch,
      scanData Fx.imStore "t" = .ok rows ∧
      lockLive Fx.imStore = false ∧
      lookupKV Fx.imStore.kv (schemaKey "t") = some (.snap snap0) ∧
      (snap0.delete Fx.imStore.lockCounter).2 = some sch ∧
      lookupKV Fx.imCreateOut.kv lockKey = some (.lockV Fx.imStore.lockCounter) ∧
      lookupKV Fx.imCreateOut.kv (schemaKey "t")
        = some (.snap (((snap0.delete Fx.imStore.lockCounter).1).update Fx.imStore.lockCounter
            ⟨"t", sch.column_defs, sch.indexes ++ [⟨"ix", Fx.col0.expr, .Both⟩]⟩)) ∧
      lookupKV Fx.imCreateOut.kv (tempSchemaKey Fx.imStore.lockCounter "t")
        = some (.bytesV (schemaKey "t")) ∧
      ∀ kr ∈ rows, lookupKV Fx.imCreateOut.kv
        (indexEntryKey "t" "ix" (evalExpr Fx.col0.expr kr.2) (idBytesOf "t" kr.1))
          = some (.bytesV [])) :=
  ⟨by decide,
   c2_create_index_success Fx.imStore "t" "ix" Fx.col0 Fx.imCreateOut (by decide)⟩

/-- Claim C3: `create_index` error cases.  For the snapshot-world impl
(index_mut.rs): absent schema key aborts with `TableNotFound`; a snapshot
whose inner value is absent aborts with `ConflictTableNotFound`; an index
of the given name already present aborts with `IndexNameAlreadyExists`;
in each case the stored keyspace is byte-identical to its pre-call state.
For the legacy impl (store_mut.rs) the two errors it can raise behave the
same way (it has no snapshot wrapper, so no `ConflictTableNotFound` case
can arise there). -/
theorem c3_create_index_error_cases :
    (∀ (s : Storage) (t n : String) (column : OrderByExpr) (rows : List (Bytes × Row)),
      scanData s t = .ok rows → lockLive s = false →
      lookupKV s.kv (schemaKey t) = none →
      (IM.create_index s t n column).2 = some (.TableNotFound t) ∧
      (IM.create_index s t n column).1.kv = s.kv) ∧
    (∀ (s : Storage) (t n : String) (column : OrderByExpr) (rows : List (Bytes × Row))
        (snap0 : Snapshot Schema),
      scanData s t = .ok rows → lockLive s = false →
      lookupKV s.kv (schemaKey t) = some (.snap snap0) → snap0.value = none →
      (IM.create_index s t n column).2 = some (.ConflictTableNotFound t) ∧
      (IM.create_index s t n column).1.kv = s.kv) ∧
    (∀ (s : Storage) (t n : String) (column : OrderByExpr) (rows : List (Bytes × Row))
        (snap0 : Snapshot Schema) (sch : Schema),
      scanData s t = .ok rows → lockLive s = false →
      lookupKV s.kv (schemaKey t) = some (.snap snap0) → snap0.value = some sch →
      sch.indexes.any (fun i => i.name == n) = true →
      (IM.create_index s t n column).2 = some (.IndexNameAlreadyExists n) ∧
      (IM.create_index s t n column).1.kv = s.kv) ∧
    (∀ (s : Storage) (t n : String) (ex : Expr),
      lookupKV s.kv (schemaKey t) = none →
      (SM.create_index s t n ex).2 = some (.TableNotFound t) ∧
      (SM.create_index s t n ex).1.kv = s.kv) ∧
    (∀ (s : Storage) (t n : String) (ex : Expr) (sch : SchemaP),
      lookupKV s.kv (schemaKey t) = some (.schemaRaw sch) →
      sch.indexes.any (fun ne => ne.1 == n) = true →
      (SM.create_index s t n ex).2 = some (.IndexNameAlreadyExists n) ∧
      (SM.create_index s t n ex).1.kv = s.kv) :=
  ⟨fun s t n column rows h1 h2 h3 =>
      IM.create_index_table_not_found s t n column rows h1 h2 h3,
   fun s t n column rows snap0 h1 h2 h3 h4 =>
      IM.create_index_conflict_table s t n column rows snap0 h1 h2 h3 h4,
   fun s t n column rows snap0 sch h1 h2 h3 h4 h5 =>
      IM.create_index_dup_name s t n column rows snap0 sch h1 h2 h3 h4 h5,
   fun s t n ex h1 => SM.create_index_absent_table s t n ex h1,
   fun s t n ex sch h1 h2 => SM.create_index_existing_name s t n ex sch h1 h2⟩

/-- Witness for C3: one concrete instance per error case. -/
theorem c3_create_index_error_cases_witness :
    ((IM.create_index Fx.emptyStore "t" "ix" Fx.col0).2 = some (.TableNotFound "t") ∧
      (IM.create_index Fx.emptyStore "t" "ix" Fx.col0).1.kv = Fx.emptyStore.kv) ∧
    ((IM.create_index Fx.imStoreGone "t" "ix" Fx.col0).2 = some (.ConflictTableNotFound "t") ∧
      (IM.create_index Fx.imStoreGone "t" "ix" Fx.col0).1.kv = Fx.imStoreGone.kv) ∧
    ((IM.create_index Fx.imStore1 "t" "ix" Fx.col0).2 = some (.IndexNameAlreadyExists "ix") ∧
      (IM.create_index Fx.imStore1 "t" "ix" Fx.col0).1.kv = Fx.imStore1.kv) ∧
    ((SM.create_index Fx.emptyStore "t" "ix" (.col 0)).2 = some (.TableNotFound "t") ∧
      (SM.create_index Fx.emptyStore "t" "ix" (.col 0)).1.kv = Fx.emptyStore.kv) ∧
    ((SM.create_index Fx.smStore "t" "ix" (.col 0)).2 = some (.IndexNameAlreadyExists "ix") ∧
      (SM.create_index Fx.smStore "t" "ix" (.col 0)).1.kv = Fx.smStore.kv) :=
  ⟨c3_create_index_error_cases.1 Fx.emptyStore "t" "ix" Fx.col0 []
      (by decide) (by decide) (by decide),
   c3_create_index_error_cases.2.1 Fx.imStoreGone "t" "ix" Fx.col0 [] ⟨0, none⟩
      (by decide) (by decide) (by decide) (by decide),
   c3_create_index_error_cases.2.2.1 Fx.imStore1 "t" "ix" Fx.col0
      [(dataKey "t" 0, [5])] ⟨0, some Fx.schI1⟩ Fx.schI1
      (by decide) (by decide) (by decide) (by decide) (by decide),
   c3_create_index_error_cases.2.2.2.1 Fx.emptyStore "t" "ix" (.col 0) (by decide),
   c3_create_index_error_cases.2.2.2.2 Fx.smStore "t" "ix" (.col 0) Fx.schP1
      (by decide) (by decide)⟩

/-- Claim C4: `update_data` aborts the whole transaction with
`ConflictOnEmptyIndexValueUpdate` when the pair it reaches has no prior
value, and `delete_data` aborts with `ConflictOnEmptyIndexValueDelete`
when the key it reaches is absent; any error leaves the keyspace exactly
as it was (nothing persists); and the pairs are processed sequentially in
the given input order (prefix-then-suffix decomposition of the
transaction body), with no reordering. -/
theorem c4_dml_conflict_on_missing :
    (∀ (s : Storage) (t : String) (rows : List (Bytes × Row)) (s' : Storage) (e : Error),
      SM.update_data s t rows = (s', some e) → s'.kv = s.kv) ∧
    (∀ (s : Storage) (t : String) (keys : List Bytes) (s' : Storage) (e : Error),
      SM.delete_data s t keys = (s', some e) → s'.kv = s.kv) ∧
    (∀ (s s1 : Storage) (t : String) (sync : List (String × Expr))
        (xs ys : List (Bytes × Row)) (k : Bytes) (r : Row) (s2 : Storage),
      SM.newIndexSync s t = (s1, .ok sync) →
      SM.updGo t sync s1 xs = .ok s2 () →
      lookupKV s2.kv k = none →
      (SM.update_data s t (xs ++ (k, r) :: ys)).2 = some .ConflictOnEmptyIndexValueUpdate ∧
      (SM.update_data s t (xs ++ (k, r) :: ys)).1.kv = s.kv) ∧
    (∀ (s s1 : Storage) (t : String) (sync : List (String × Expr))
        (xs ys : List Bytes) (k : Bytes) (s2 : Storage),
      SM.newIndexSync s t = (s1, .ok sync) →
      SM.delGo t sync s1 xs = .ok s2 () →
      lookupKV s2.kv k = none →
      (SM.delete_data s t (xs ++ k :: ys)).2 = some .ConflictOnEmptyIndexValueDelete ∧
      (SM.delete_data s t (xs ++ k :: ys)).1.kv = s.kv) ∧
    (∀ (t : String) (sync : List (String × Expr)) (xs ys : List (Bytes × Row)) (s : Storage),
      SM.updGo t sync s (xs ++ ys) =
        match SM.updGo t sync s xs with
        | .ok s1 _ => SM.updGo t sync s1 ys
        | .abort s1 e => .abort s1 e) := by
  refine ⟨?_, ?_, ?_, ?_, ?_⟩
  · intro s t rows s' e hcall
    rcases hh : SM.newIndexSync s t with ⟨s1, es⟩
    have hs1 : s1 = { s with accessLog := s.accessLog ++ [schemaKey t] } := by
      have h2 := congrArg Prod.fst hh
      rw [SM.newIndexSync_fst] at h2
      exact h2.symm
    have hs1kv : s1.kv = s.kv := by rw [hs1]
    cases es with
    | error e2 =>
        simp only [SM.update_data, hh] at hcall
        have h3 := congrArg Prod.fst hcall
        simp only at h3
        rw [← h3]
        exact hs1kv
    | ok sync =>
        simp only [SM.update_data, hh] at hcall
        rw [runTx_err_kv s1 _ s' e hcall]
        exact hs1kv
  · intro s t keys s' e hcall
    rcases hh : SM.newIndexSync s t with ⟨s1, es⟩
    have hs1 : s1 = { s with accessLog := s.accessLog ++ [schemaKey t] } := by
      have h2 := congrArg Prod.fst hh
      rw [SM.newIndexSync_fst] at h2
      exact h2.symm
    have hs1kv : s1.kv = s.kv := by rw [hs1]
    cases es with
    | error e2 =>
        simp only [SM.delete_data, hh] at hcall
        have h3 := congrArg Prod.fst hcall
        simp only at h3
        rw [← h3]
        exact hs1kv
    | ok sync =>
        simp only [SM.delete_data, hh] at hcall
        rw [runTx_err_kv s1 _ s' e hcall]
        exact hs1kv
  · intro s s1 t sync xs ys k r s2 hh hxs hk
    have hs1 : s1 = { s with accessLog := s.accessLog ++ [schemaKey t] } := by
      have h2 := congrArg Prod.fst hh
      rw [SM.newIndexSync_fst] at h2
      exact h2.symm
    have hs1kv : s1.kv = s.kv := by rw [hs1]
    simp only [SM.update_data, hh, SM.updGo_append t sync xs ((k, r) :: ys) s1, hxs,
      SM.updGo_missing t sync s2 k r ys hk, runTx]
    exact ⟨trivial, hs1kv⟩
  · intro s s1 t sync xs ys k s2 hh hxs hk
    have hs1 : s1 = { s with accessLog := s.accessLog ++ [schemaKey t] } := by
      have h2 := congrArg Prod.fst hh
      rw [SM.newIndexSync_fst] at h2
      exact h2.symm
    have hs1kv : s1.kv = s.kv := by rw [hs1]
    simp only [SM.delete_data, hh, SM.delGo_append t sync xs (k :: ys) s1, hxs,
      SM.delGo_missing t sync s2 k ys hk, runTx]
    exact ⟨trivial, hs1kv⟩
  · intro t sync xs ys s
    exact SM.updGo_append t sync xs ys s

/-- Witness for C4: a concrete missing-key update and delete against the
raw-schema store. -/
theorem c4_dml_conflict_on_missing_witness :
    ((SM.update_data Fx.smStore "t" [(dataKey "t" 5, [7])]).1.kv = Fx.smStore.kv) ∧
    ((SM.delete_data Fx.smStore "t" [dataKey "t" 5]).1.kv = Fx.smStore.kv) ∧
    ((SM.update_data Fx.smStore "t" [(dataKey "t" 5, [7])]).2
        = some .ConflictOnEmptyIndexValueUpdate) ∧
    ((SM.delete_data Fx.smStore "t" [dataKey "t" 5]).2
        = some .ConflictOnEmptyIndexValueDelete) ∧
    (SM.updGo "t" [("ix", .col 0)] (SM.newIndexSync Fx.smStore "t").1
        ([] ++ [(dataKey "t" 0, [6])]) =
      match SM.updGo "t" [("ix", .col 0)] (SM.newIndexSync Fx.smStore "t").1 [] with
      | .ok s1 _ => SM.updGo "t" [("ix", .col 0)] s1 [(dataKey "t" 0, [6])]
      | .abort s1 e => .abort s1 e) :=
  ⟨(c4_dml_conflict_on_missing.2.2.1 Fx.smStore (SM.newIndexSync Fx.smStore "t").1 "t"
      [("ix", .col 0)] [] [] (dataKey "t" 5) [7] (SM.newIndexSync Fx.smStore "t").1
      (by decide) (by decide) (by decide)).2,
   (c4_dml_conflict_on_missing.2.2.2.1 Fx.smStore (SM.newIndexSync Fx.smStore "t").1 "t"
      [("ix", .col 0)] [] [] (dataKey "t" 5) (SM.newIndexSync Fx.smStore "t").1
      (by decide) (by decide) (by decide)).2,
   (c4_dml_conflict_on_missing.2.2.1 Fx.smStore (SM.newIndexSync Fx.smStore "t").1 "t"
      [("ix", .col 0)] [] [] (dataKey "t" 5) [7] (SM.newIndexSync Fx.smStore "t").1
      (by decide) (by decide) (by decide)).1,
   (c4_dml_conflict_on_missing.2.2.2.1 Fx.smStore (SM.newIndexSync Fx.smStore "t").1 "t"
      [("ix", .col 0)] [] [] (dataKey "t" 5) (SM.newIndexSync Fx.smStore "t").1
      (by decide) (by decide) (by decide)).1,
   c4_dml_conflict_on_missing.2.2.2.2 "t" [("ix", .col 0)] []
      [(dataKey "t" 0, [6])] (SM.newIndexSync Fx.smStore "t").1⟩

/-- Claim C5: `insert_data` is atomic (any error leaves the keyspace
untouched); on success each input row `i` received the fresh monotonic id
`idCounter + i`, sits at key `data/<table>/` followed by the fixed-width
big-endian id, and every index of the `IndexSync` view has its entry
written, provided the id space is not exhausted. -/
theorem c5_insert_data_rows_and_entries :
    (∀ (s : Storage) (t : String) (rows : List Row) (s' : Storage) (e : Error),
      SM.insert_data s t rows = (s', some e) → s'.kv = s.kv) ∧
    (∀ (s s1 : Storage) (t : String) (rows : List Row)
        (sync : List (String × Expr)) (s' : Storage),
      SM.newIndexSync s t = (s1, .ok sync) →
      SM.insert_data s t rows = (s', none) →
      s.idCounter + rows.length ≤ 2 ^ 64 →
      s'.idCounter = s.idCounter + rows.length ∧
      ∀ (i : Nat) (h : i < rows.length),
        lookupKV s'.kv (rowKeyBase t ++ beBytes (s.idCounter + i))
          = some (.rowV (rows.get ⟨i, h⟩)) ∧
        ∀ ne ∈ sync,
          lookupKV s'.kv (indexEntryKey t ne.1 (evalExpr ne.2 (rows.get ⟨i, h⟩))
            (beBytes (s.idCounter + i))) = some (.bytesV [])) := by
  constructor
  · intro s t rows s' e hcall
    rcases hh : SM.newIndexSync s t with ⟨s1, es⟩
    have hs1 : s1 = { s with accessLog := s.accessLog ++ [schemaKey t] } := by
      have h2 := congrArg Prod.fst hh
      rw [SM.newIndexSync_fst] at h2
      exact h2.symm
    have hs1kv : s1.kv = s.kv := by rw [hs1]
    cases es with
    | error e2 =>
        simp only [SM.insert_data, hh] at hcall
        have h3 := congrArg Prod.fst hcall
        simp only at h3
        rw [← h3]
        exact hs1kv
    | ok sync =>
        simp only [SM.insert_data, hh] at hcall
        rw [runTx_err_kv s1 _ s' e hcall]
        exact hs1kv
  · intro s s1 t rows sync s' hh hcall hbound
    have hs1 : s1 = { s with accessLog := s.accessLog ++ [schemaKey t] } := by
      have h2 := congrArg Prod.fst hh
      rw [SM.newIndexSync_fst] at h2
      exact h2.symm
    have hs1id : s1.idCounter = s.idCounter := by rw [hs1]
    simp only [SM.insert_data, hh] at hcall
    have hgo := runTx_ok s1 _ s' hcall
    obtain ⟨s'', hgo2, hc2, _⟩ := SM.insGo_ok t sync rows s1
    have hss : s'' = s' := by
      have h3 := hgo2.symm.trans hgo
      injection h3 with h4 _
    constructor
    · rw [← hss, hc2, hs1id]
    · intro i hi
      have hmem := SM.insGo_mem t sync rows s1 s' hgo
        (by rw [hs1id]; exact hbound) i hi
      rw [hs1id] at hmem
      exact hmem

/-- Witness for C5: inserting one row into the raw-schema store. -/
theorem c5_insert_data_rows_and_entries_witness :
    ((SM.insert_data Fx.smStore "t" [[9]]).1.idCounter = Fx.smStore.idCounter + 1) ∧
    (∀ (i : Nat) (h : i < ([[9]] : List Row).length),
      lookupKV (SM.insert_data Fx.smStore "t" [[9]]).1.kv
        (rowKeyBase "t" ++ beBytes (Fx.smStore.idCounter + i))
          = some (.rowV (([[9]] : List Row).get ⟨i, h⟩)) ∧
      ∀ ne ∈ [(("ix" : String), Expr.col 0)],
        lookupKV (SM.insert_data Fx.smStore "t" [[9]]).1.kv
          (indexEntryKey "t" ne.1 (evalExpr ne.2 (([[9]] : List Row).get ⟨i, h⟩))
            (beBytes (Fx.smStore.idCounter + i))) = some (.bytesV [])) :=
  c5_insert_data_rows_and_entries.2 Fx.smStore (SM.newIndexSync Fx.smStore "t").1 "t"
    [[9]] [("ix", .col 0)] (SM.insert_data Fx.smStore "t" [[9]]).1
    (by decide) (by decide) (by decide)

/-- Claim C6: `drop_index` partitions the schema's indexes on name
equality; when nothing matches it aborts with `IndexNameDoesNotExist`
leaving the keyspace untouched; on success exactly the matching indexes
are removed from the schema (the kept half of the partition is written
back in the updated Snapshot Record), the removed index's entry is
deleted for every scanned row, and the temp marker is written. -/
theorem c6_drop_index_partition :
    (∀ (s : Storage) (t n : String) (rows : List (Bytes × Row))
        (snap0 : Snapshot Schema) (sch : Schema),
      scanData s t = .ok rows → lockLive s = false →
      lookupKV s.kv (schemaKey t) = some (.snap snap0) → snap0.value = some sch →
      (sch.indexes.partition (fun i => i.name == n)).1 = [] →
      (IM.drop_index s t n).2 = some (.IndexNameDoesNotExist n) ∧
      (IM.drop_index s t n).1.kv = s.kv) ∧
    (∀ (s : Storage) (t n : String) (s' : Storage),
      IM.drop_index s t n = (s', none) →
      ∃ rows snap0 sch idx restIdx,
        scanData s t = .ok rows ∧
        lookupKV s.kv (schemaKey t) = some (.snap snap0) ∧
        snap0.value = some sch ∧
        (sch.indexes.partition (fun i => i.name == n)).1 = idx :: restIdx ∧
        lookupKV s'.kv (schemaKey t)
          = some (.snap ⟨s.lockCounter,
              some ⟨t, sch.column_defs, (sch.indexes.partition (fun i => i.name == n)).2⟩⟩) ∧
        lookupKV s'.kv (tempSchemaKey s.lockCounter t) = some (.bytesV (schemaKey t)) ∧
        ∀ kr ∈ rows, lookupKV s'.kv
          (indexEntryKey t idx.name (evalExpr idx.expr kr.2) (idBytesOf t kr.1)) = none) := by
  constructor
  · intro s t n rows snap0 sch h1 h2 h3 h4 h5
    have hnm := IM.drop_index_nomatch s t n rows snap0 sch h1 h2 h3 h4 h5
    exact ⟨congrArg Prod.snd hnm.1, hnm.2⟩
  · intro s t n s' h
    obtain ⟨rows, snap0, sch, idx, restIdx, hscan, hlock, hsch, hval, hpart, hs'⟩ :=
      IM.drop_index_ok_inv s t n s' h
    subst hs'
    refine ⟨rows, snap0, sch, idx, restIdx, hscan, hsch, hval, hpart, ?_, ?_, ?_⟩
    · exact IM.dropIndexOk_schema s t n rows sch idx
    · exact IM.dropIndexOk_temp s t n rows sch idx
    · intro kr hkr
      obtain ⟨k, r⟩ := kr
      exact IM.dropIndexOk_entry s t n rows sch idx k r hkr

/-- Witness for C6: a no-match drop on the index-free store and a
successful drop of `ix` on the store that carries it. -/
theorem c6_drop_index_partition_witness :
    ((IM.drop_index Fx.imStore "t" "ix").2 = some (.IndexNameDoesNotExist "ix") ∧
      (IM.drop_index Fx.imStore "t" "ix").1.kv = Fx.imStore.kv) ∧
    (IM.drop_index Fx.imStore1 "t" "ix" = (Fx.imDropOut, none) ∧
      (∃ rows snap0 sch idx restIdx,
        scanData Fx.imStore1 "t" = .ok rows ∧
        lookupKV Fx.imStore1.kv (schemaKey "t") = some (.snap snap0) ∧
        snap0.value = some sch ∧
        (sch.indexes.partition (fun i => i.name == "ix")).1 = idx :: restIdx ∧
        lookupKV Fx.imDropOut.kv (schemaKey "t")
          = some (.snap ⟨Fx.imStore1.lockCounter,
              some ⟨"t", sch.column_defs,
                (sch.indexes.partition (fun i => i.name == "ix")).2⟩⟩) ∧
        lookupKV Fx.imDropOut.kv (tempSchemaKey Fx.imStore1.lockCounter "t")
          = some (.bytesV (schemaKey "t")) ∧
        ∀ kr ∈ rows, lookupKV Fx.imDropOut.kv
          (indexEntryKey "t" idx.name (evalExpr idx.expr kr.2) (idBytesOf "t" kr.1))
            = none)) :=
  ⟨c6_drop_index_partition.1 Fx.imStore "t" "ix" [(dataKey "t" 0, [5])]
      ⟨0, some Fx.schI0⟩ Fx.schI0 (by decide) (by decide) (by decide) (by decide) (by decide),
   ⟨by decide,
    c6_drop_index_partition.2 Fx.imStore1 "t" "ix" Fx.imDropOut (by decide)⟩⟩

/-- Claim C7 counterexample: a successful `create_index` commit leaves its
temp marker in the keyspace — the claim says no temp marker key remains
after the commit.  Concretely: the call succeeds and
`temp_schema/<txid>/t` is still present, holding the schema key bytes. -/
theorem c7_counterexample_temp_marker_persists :
    (IM.create_index Fx.imStore "t" "ix" Fx.col0).2 = none ∧
    lookupKV (IM.create_index Fx.imStore "t" "ix" Fx.col0).1.kv (tempSchemaKey 1 "t")
      = some (.bytesV (schemaKey "t")) := by
  decide

/-- Claim C7, amended: after a committed `create_index` or `drop_index`
the temp marker written at `temp_schema/<txid>/<table>` remains in the
keyspace, with the schema key bytes as its value; its removal is left to
a later recovery sweep, not to the committing transaction. -/
theorem c7_amended_temp_marker_remains :
    (∀ (s : Storage) (t n : String) (column : OrderByExpr) (s' : Storage),
      IM.create_index s t n column = (s', none) →
      lookupKV s'.kv (tempSchemaKey s.lockCounter t) = some (.bytesV (schemaKey t))) ∧
    (∀ (s : Storage) (t n : String) (s' : Storage),
      IM.drop_index s t n = (s', none) →
      lookupKV s'.kv (tempSchemaKey s.lockCounter t) = some (.bytesV (schemaKey t))) := by
  constructor
  · intro s t n column s' h
    obtain ⟨rows, snap0, sch, _, _, _, _, _, hs'⟩ := IM.create_index_ok_inv s t n column s' h
    subst hs'
    exact IM.createIndexOk_temp s t n column rows sch
  · intro s t n s' h
    obtain ⟨rows, snap0, sch, idx, restIdx, _, _, _, _, _, hs'⟩ :=
      IM.drop_index_ok_inv s t n s' h
    subst hs'
    exact IM.dropIndexOk_temp s t n rows sch idx

/-- Witness for the amended C7 on concrete committed calls. -/
theorem c7_amended_temp_marker_remains_witness :
    (IM.create_index Fx.imStore "t" "ix" Fx.col0 = (Fx.imCreateOut, none) ∧
      lookupKV Fx.imCreateOut.kv (tempSchemaKey Fx.imStore.lockCounter "t")
        = some (.bytesV (schemaKey "t"))) ∧
    (IM.drop_index Fx.imStore1 "t" "ix" = (Fx.imDropOut, none) ∧
      lookupKV Fx.imDropOut.kv (tempSchemaKey Fx.imStore1.lockCounter "t")
        = some (.bytesV (schemaKey "t"))) :=
  ⟨⟨by decide,
    c7_amended_temp_marker_remains.1 Fx.imStore "t" "ix" Fx.col0 Fx.imCreateOut (by decide)⟩,
   ⟨by decide,
    c7_amended_temp_marker_remains.2 Fx.imStore1 "t" "ix" Fx.imDropOut (by decide)⟩⟩

/-- Claim C8 counterexample: the repository also contains the legacy
`StoreMut::create_index` (store_mut.rs:188-242), a structural mutation
that completes a successful call without ever reading or writing the
global lock key — so "create_index ... call[s] lock::acquire inside their
KV transaction" does not hold of the code as a whole. -/
theorem c8_counterexample_legacy_create_index_no_lock :
    (SM.create_index Fx.smStore "t" "ix2" (.col 0)).2 = none ∧
    List.contains (SM.create_index Fx.smStore "t" "ix2" (.col 0)).1.accessLog lockKey
      = false ∧
    lookupKV (SM.create_index Fx.smStore "t" "ix2" (.col 0)).1.kv lockKey = none := by
  decide

/-- Claim C8, amended: the `IndexMut` implementations of `create_index`
and `drop_index` (index_mut.rs) do acquire the structural lock inside
their KV transaction (they touch the lock key in every execution that
reaches the transaction), while the legacy `StoreMut` implementations of
`create_index`/`drop_index` (store_mut.rs) never touch it; and
`insert_data`, `update_data`, `delete_data` never read or write the lock
key — for update/delete, unless the caller passes the reserved lock key
itself as a row key. -/
theorem c8_amended_lock_discipline :
    (∀ (s : Storage) (t n : String) (column : OrderByExpr) (rows : List (Bytes × Row)),
      scanData s t = .ok rows → lockKey ∈ (IM.create_index s t n column).1.accessLog) ∧
    (∀ (s : Storage) (t n : String) (rows : List (Bytes × Row)),
      scanData s t = .ok rows → lockKey ∈ (IM.drop_index s t n).1.accessLog) ∧
    (∀ (s : Storage) (t : String) (rows : List Row), lockKey ∉ s.accessLog →
      lockKey ∉ (SM.insert_data s t rows).1.accessLog ∧
      lookupKV (SM.insert_data s t rows).1.kv lockKey = lookupKV s.kv lockKey) ∧
    (∀ (s : Storage) (t : String) (rows : List (Bytes × Row)), lockKey ∉ s.accessLog →
      (∀ kr ∈ rows, kr.1 ≠ lockKey) →
      lockKey ∉ (SM.update_data s t rows).1.accessLog ∧
      lookupKV (SM.update_data s t rows).1.kv lockKey = lookupKV s.kv lockKey) ∧
    (∀ (s : Storage) (t : String) (keys : List Bytes), lockKey ∉ s.accessLog →
      (∀ k ∈ keys, k ≠ lockKey) →
      lockKey ∉ (SM.delete_data s t keys).1.accessLog) ∧
    (∀ (s : Storage) (t n : String) (ex : Expr), lockKey ∉ s.accessLog →
      lockKey ∉ (SM.create_index s t n ex).1.accessLog) ∧
    (∀ (s : Storage) (t n : String), lockKey ∉ s.accessLog →
      lockKey ∉ (SM.drop_index s t n).1.accessLog) :=
  ⟨fun s t n column rows hscan => IM.create_index_locks s t n column rows hscan,
   fun s t n rows hscan => IM.drop_index_locks s t n rows hscan,
   fun s t rows h => SM.insert_data_no_lock s t rows h,
   fun s t rows h hkeys => SM.update_data_no_lock s t rows h hkeys,
   fun s t keys h hkeys => SM.delete_data_no_lock s t keys h hkeys,
   fun s t n ex h => SM.create_index_no_lock s t n ex h,
   fun s t n h => SM.drop_index_no_lock s t n h⟩

/-- Witness for the amended C8 on concrete calls of each operation. -/
theorem c8_amended_lock_discipline_witness :
    (lockKey ∈ (IM.create_index Fx.imStore "t" "ix" Fx.col0).1.accessLog) ∧
    (lockKey ∈ (IM.drop_index Fx.imStore1 "t" "ix").1.accessLog) ∧
    (lockKey ∉ (SM.insert_data Fx.smStore "t" [[9]]).1.accessLog) ∧
    (lockKey ∉ (SM.update_data Fx.smStore "t" [(dataKey "t" 0, [6])]).1.accessLog) ∧
    (lockKey ∉ (SM.delete_data Fx.smStore "t" [dataKey "t" 0]).1.accessLog) ∧
    (lockKey ∉ (SM.create_index Fx.smStore "t" "ix2" (.col 0)).1.accessLog) ∧
    (lockKey ∉ (SM.drop_index Fx.smStore "t" "ix").1.accessLog) :=
  ⟨c8_amended_lock_discipline.1 Fx.imStore "t" "ix" Fx.col0
      [(dataKey "t" 0, [5])] (by decide),
   c8_amended_lock_discipline.2.1 Fx.imStore1 "t" "ix"
      [(dataKey "t" 0, [5])] (by decide),
   (c8_amended_lock_discipline.2.2.1 Fx.smStore "t" [[9]] (by decide)).1,
   (c8_amended_lock_discipline.2.2.2.1 Fx.smStore "t" [(dataKey "t" 0, [6])]
      (by decide) (by decide)).1,
   c8_amended_lock_discipline.2.2.2.2.1 Fx.smStore "t" [dataKey "t" 0]
      (by decide) (by decide),
   c8_amended_lock_discipline.2.2.2.2.2.1 Fx.smStore "t" "ix2" (.col 0) (by decide),
   c8_amended_lock_discipline.2.2.2.2.2.2 Fx.smStore "t" "ix" (by decide)⟩

/-- Claim C9: updating an existing row with a new row equal to the old
one leaves the keyspace byte-identical to the pre-call state (and the
call succeeds): the swapped-in bytes equal the bytes already present, and
`IndexSync::update` skips every index because the indexed values agree. -/
theorem c9_update_identity_noop (s : Storage) (t : String) (k : Bytes) (r : Row)
    (sch : SchemaP)
    (hsch : lookupKV s.kv (schemaKey t) = some (.schemaRaw sch))
    (hrow : lookupKV s.kv k = some (.rowV r)) :
    (SM.update_data s t [(k, r)]).2 = none ∧
    (SM.update_data s t [(k, r)]).1.kv = s.kv := by
  have hh := SM.newIndexSync_raw s t sch hsch
  have hstep : SM.updGo t sch.indexes
      { s with accessLog := s.accessLog ++ [schemaKey t] } [(k, r)]
      = .ok { s with accessLog := (s.accessLog ++ [schemaKey t]) ++ [k] } () := by
    simp only [SM.updGo, insertOp, hrow]
    rw [setKV_self s.kv k (.rowV r) hrow]
    rw [SM.syncUpdateRow_self]
  simp only [SM.update_data, hh, hstep, runTx]
  exact ⟨trivial, trivial⟩

/-- Witness for C9: rewriting row `[5]` with itself on the concrete
store. -/
theorem c9_update_identity_noop_witness :
    (SM.update_data Fx.smStore "t" [(dataKey "t" 0, [5])]).2 = none ∧
    (SM.update_data Fx.smStore "t" [(dataKey "t" 0, [5])]).1.kv = Fx.smStore.kv :=
  c9_update_identity_noop Fx.smStore "t" (dataKey "t" 0) [5] Fx.schP1
    (by decide) (by decide)

/-- Claim C10: the result of `IndexMut::create_index` does not depend on
the ascending/descending component of the `OrderByExpr` argument at all,
and every index it appends is recorded with order capability
`SchemaIndexOrd::Both`. -/
theorem c10_order_capability_both :
    (∀ (s : Storage) (t n : String) (ex : Expr) (asc1 asc2 : Option Bool),
      IM.create_index s t n ⟨ex, asc1⟩ = IM.create_index s t n ⟨ex, asc2⟩) ∧
    (∀ (s : Storage) (t n : String) (column : OrderByExpr) (s' : Storage),
      IM.create_index s t n column = (s', none) →
      ∃ sch : Schema,
        lookupKV s'.kv (schemaKey t)
          = some (.snap ⟨s.lockCounter,
              some ⟨t, sch.column_defs,
                sch.indexes ++ [⟨n, column.expr, SchemaIndexOrd.Both⟩]⟩⟩)) := by
  constructor
  · intro s t n ex asc1 asc2
    rfl
  · intro s t n column s' h
    obtain ⟨rows, snap0, sch, _, _, _, _, _, hs'⟩ := IM.create_index_ok_inv s t n column s' h
    subst hs'
    exact ⟨sch, IM.createIndexOk_schema s t n column rows sch⟩

/-- Witness for C10 on the concrete successful `create_index`. -/
theorem c10_order_capability_both_witness :
    (IM.create_index Fx.imStore "t" "ix" ⟨.col 0, some true⟩
      = IM.create_index Fx.imStore "t" "ix" ⟨.col 0, some false⟩) ∧
    (∃ sch : Schema,
      lookupKV Fx.imCreateOut.kv (schemaKey "t")
        = some (.snap ⟨Fx.imStore.lockCounter,
            some ⟨"t", sch.column_defs,
              sch.indexes ++ [⟨"ix", Fx.col0.expr, SchemaIndexOrd.Both⟩]⟩⟩)) :=
  ⟨c10_order_capability_both.1 Fx.imStore "t" "ix" (.col 0) (some true) (some false),
   c10_order_capability_both.2 Fx.imStore "t" "ix" Fx.col0 Fx.imCreateOut (by decide)⟩

end Sled
